import Mathlib

/-!
Verification development for the IMDAI discovery subsystem
(`image-prompt-app/backend/discovery/`): perceptual hashing, duplicate
resolution, reference store actions, local ingestion, rate limiting, trait
aggregation and prompt composition, shallowly embedded in Lean.

Numeric convention: Python floats are modelled as exact rationals (`ℚ`);
machine integers are `Nat`/`Int` (Python ints are arbitrary precision, so no
modular reduction is needed).
-/

namespace IMDAI

/-! ## Python primitives

Models of the Python builtins the discovery code relies on:
`int(s, 16)` (hex parsing with whitespace stripping, optional sign, optional
`0x` prefix and single underscores between digits), `bin(x).count("1")`
(population count of the absolute value), and arbitrary-precision `^` on
signed integers (two's-complement semantics). -/

/-- Halving recursion for `popcount`, driven by a fuel bound so that the
definition is structurally recursive (and hence evaluates by reduction). -/
def popcountAux : Nat → Nat → Nat
  | 0, _ => 0
  | fuel + 1, n => if n = 0 then 0 else n % 2 + popcountAux fuel (n / 2)

/-- Population count of a natural number: models `bin(n).count("1")` for a
nonnegative Python int. -/
def popcount (n : Nat) : Nat := popcountAux n n

theorem popcountAux_fuel : ∀ f₁ f₂ n, n ≤ f₁ → n ≤ f₂ →
    popcountAux f₁ n = popcountAux f₂ n := by
  intro f₁
  induction f₁ with
  | zero =>
    intro f₂ n h₁ _
    interval_cases n
    cases f₂ <;> simp [popcountAux]
  | succ f ih =>
    intro f₂ n h₁ h₂
    rcases Nat.eq_zero_or_pos n with h0 | h0
    · subst h0; cases f₂ <;> simp [popcountAux]
    · obtain ⟨f₂', rfl⟩ : ∃ k, f₂ = k + 1 := ⟨f₂ - 1, by omega⟩
      have hne : n ≠ 0 := by omega
      have hdiv : n / 2 < n := Nat.div_lt_self h0 (by omega)
      simp only [popcountAux, if_neg hne]
      rw [ih f₂' (n / 2) (by omega) (by omega)]

/-- Python `^` (xor) on arbitrary-precision signed ints, by two's-complement
cases: `-m = ~(m-1)`, so mixed signs give `~(a ^ b)` and two negatives give a
nonnegative xor. -/
def pyXor : Int → Int → Int
  | .ofNat m, .ofNat k => .ofNat (m ^^^ k)
  | .ofNat m, .negSucc k => .negSucc (m ^^^ k)
  | .negSucc m, .ofNat k => .negSucc (m ^^^ k)
  | .negSucc m, .negSucc k => .ofNat (m ^^^ k)

/-- `bin(v).count("1")` for a Python int `v`: Python renders negatives as
`-0b...` of the absolute value, so the count is the popcount of `|v|`. -/
def pyBitCount (v : Int) : Nat := popcount v.natAbs

/-- ASCII whitespace stripped by `str.strip()`. -/
def isPySpace (c : Char) : Bool :=
  c = ' ' || c = '\t' || c = '\n' || c = '\r' || c = '\x0b' || c = '\x0c'

/-- Value of a hexadecimal digit character, if it is one. -/
def hexDigitVal? (c : Char) : Option Nat :=
  if '0' ≤ c ∧ c ≤ '9' then some (c.toNat - '0'.toNat)
  else if 'a' ≤ c ∧ c ≤ 'f' then some (c.toNat - 'a'.toNat + 10)
  else if 'A' ≤ c ∧ c ≤ 'F' then some (c.toNat - 'A'.toNat + 10)
  else none

/-- Digit run after the first digit: hex digits with single underscores that
must sit between digits (Python numeric-literal rule used by `int(s, 16)`). -/
def parseHexCore (acc : Nat) : List Char → Option Nat
  | [] => some acc
  | c :: rest =>
    if c = '_' then
      match rest with
      | [] => none
      | c₂ :: rest₂ =>
        match hexDigitVal? c₂ with
        | some d => parseHexCore (16 * acc + d) rest₂
        | none => none
    else
      match hexDigitVal? c with
      | some d => parseHexCore (16 * acc + d) rest
      | none => none

/-- Digit run that may not start with an underscore and may not be empty. -/
def parseHexDigits : List Char → Option Nat
  | [] => none
  | c :: rest =>
    match hexDigitVal? c with
    | some d => parseHexCore d rest
    | none => none

/-- Digit run directly after a `0x` prefix: Python additionally allows one
underscore between the prefix and the first digit (`int("0x_ff", 16)`). -/
def parseHexAfterPre (cs : List Char) : Option Nat :=
  match cs with
  | '_' :: rest => parseHexDigits rest
  | _ => parseHexDigits cs

/-- Unsigned body of `int(s, 16)`: optional `0x`/`0X` prefix, then digits. -/
def pyIntHexBody (cs : List Char) : Option Nat :=
  match cs with
  | c :: x :: rest =>
    if c = '0' ∧ (x = 'x' ∨ x = 'X') then parseHexAfterPre rest
    else parseHexDigits (c :: x :: rest)
  | _ => parseHexDigits cs

/-- Model of Python `int(s, 16)`: strip ASCII whitespace, read an optional
sign, then the hex body; `none` models the `ValueError` raised on malformed
input. -/
def pyIntHex (s : String) : Option Int :=
  let cs := ((s.toList.dropWhile isPySpace).reverse.dropWhile isPySpace).reverse
  match cs with
  | c :: rest =>
    if c = '+' then (pyIntHexBody rest).map Int.ofNat
    else if c = '-' then (pyIntHexBody rest).map (fun n => -(Int.ofNat n))
    else (pyIntHexBody (c :: rest)).map Int.ofNat
  | [] => none

/-! ## Perceptual hashing (`discovery/phash.py`)

`hamming_distance` is embedded in full.  `compute_phash` runs a floating
point DCT; its final, discrete stage (lines 33-37: assemble get bit list with a
fixed leading `"0"`, truncate to 64 bits, pack into an integer and render as
16 lowercase hex characters) is embedded as a function of the list of
threshold comparisons `value > median` computed for `flat[1:]`. -/

/-- `hamming_distance` (phash.py lines 40-47): parse both hashes with
`int(·, 16)`; on failure return 64, otherwise popcount of the xor. -/
def hamming_distance (hash_a hash_b : String) : Nat :=
  match pyIntHex hash_a, pyIntHex hash_b with
  | some int_a, some int_b => pyBitCount (pyXor int_a int_b)
  | _, _ => 64

/-- Lowercase hex digits of `n`, most significant first: models `f"{n:x}"`. -/
def natToHex (n : Nat) : List Char :=
  if _h : n < 16 then [Nat.digitChar n]
  else natToHex (n / 16) ++ [Nat.digitChar (n % 16)]
decreasing_by exact Nat.div_lt_self (by omega) (by omega)

/-- `f"{n:016x}"`: lowercase hex, zero-padded on the left to 16 characters. -/
def toHex16 (n : Nat) : String :=
  let ds := natToHex n
  String.mk (List.replicate (16 - ds.length) '0' ++ ds)

/-- Discrete tail of `compute_phash` (phash.py lines 33-37), as a function of
the comparison bits `value > median` for the 63 non-DC coefficients: prepend
the fixed `"0"` DC bit, keep 64 bits, pack big-endian, format as 16 hex
characters. -/
def compute_phash (bits : List Bool) : String :=
  let bitstring := false :: bits
  let hash_int := (bitstring.take 64).foldl (fun acc b => 2 * acc + (if b then 1 else 0)) 0
  toHex16 hash_int

/-! ### Supporting lemmas for the phash claims -/

theorem popcount_zero : popcount 0 = 0 := rfl

theorem popcount_eq (n : Nat) (hn : n ≠ 0) : popcount n = n % 2 + popcount (n / 2) := by
  obtain ⟨m, rfl⟩ : ∃ k, n = k + 1 := ⟨n - 1, by omega⟩
  show popcountAux (m + 1) (m + 1) = (m + 1) % 2 + popcount ((m + 1) / 2)
  simp only [popcountAux, if_neg hn, popcount]
  congr 1
  exact popcountAux_fuel m ((m + 1) / 2) ((m + 1) / 2) (by omega) (by omega)

/-- Numbers below `2 ^ k` have at most `k` set bits. -/
theorem popcount_le_of_lt (k : Nat) : ∀ n, n < 2 ^ k → popcount n ≤ k := by
  induction k with
  | zero =>
    intro n hn
    interval_cases n
    simp [popcount, popcountAux]
  | succ k ih =>
    intro n hn
    rcases Nat.eq_zero_or_pos n with h0 | h0
    · subst h0; simp [popcount, popcountAux]
    · rw [popcount_eq n (by omega)]
      have hdiv : n / 2 < 2 ^ k := by
        apply Nat.div_lt_of_lt_mul
        calc n < 2 ^ (k + 1) := hn
        _ = 2 * 2 ^ k := by ring
      have := ih (n / 2) hdiv
      have hm : n % 2 ≤ 1 := Nat.le_of_lt_succ (Nat.mod_lt n (by omega))
      omega

theorem popcount_two_pow (k : Nat) : popcount (2 ^ k) = 1 := by
  induction k with
  | zero => rfl
  | succ k ih =>
    have h2 : (2 : Nat) ^ (k + 1) ≠ 0 := by positivity
    rw [popcount_eq _ h2]
    have hmod : 2 ^ (k + 1) % 2 = 0 := by
      simp [Nat.pow_succ, Nat.mul_mod_left]
    have hdiv : 2 ^ (k + 1) / 2 = 2 ^ k := by
      simp [Nat.pow_succ]
    rw [hmod, hdiv, ih]

theorem popcount_le_of_le_two_pow {n k : Nat} (h : n ≤ 2 ^ k) (hk : 1 ≤ k) :
    popcount n ≤ k := by
  rcases Nat.lt_or_ge n (2 ^ k) with hlt | hge
  · exact popcount_le_of_lt k n hlt
  · have : n = 2 ^ k := Nat.le_antisymm h hge
    rw [this, popcount_two_pow]
    exact hk

theorem pyXor_comm (a b : Int) : pyXor a b = pyXor b a := by
  cases a <;> cases b <;> simp [pyXor, Nat.xor_comm]

theorem pyXor_self (a : Int) : pyXor a a = 0 := by
  cases a <;> simp [pyXor]

theorem hamming_comm (a b : String) : hamming_distance a b = hamming_distance b a := by
  unfold hamming_distance
  cases pyIntHex a <;> cases pyIntHex b <;> simp [pyBitCount, pyXor_comm]

theorem hexDigitVal?_digitChar {d : Nat} (h : d < 16) :
    (hexDigitVal? (Nat.digitChar d)).isSome := by
  interval_cases d <;> decide

theorem natToHex_ne_nil (n : Nat) : natToHex n ≠ [] := by
  rw [natToHex]
  split <;> simp

theorem natToHex_mem_hex : ∀ n, ∀ c ∈ natToHex n, (hexDigitVal? c).isSome := by
  intro n
  induction n using Nat.strong_induction_on with
  | _ n ih =>
    intro c hc
    rw [natToHex] at hc
    split at hc
    · rename_i h16
      simp only [List.mem_singleton] at hc
      subst hc
      exact hexDigitVal?_digitChar h16
    · rename_i h16
      rw [List.mem_append] at hc
      rcases hc with hc | hc
      · exact ih (n / 16) (Nat.div_lt_self (by omega) (by omega)) c hc
      · simp only [List.mem_singleton] at hc
        subst hc
        exact hexDigitVal?_digitChar (Nat.mod_lt n (by omega))

theorem isPySpace_eq_false_of_hex {c : Char} (h : (hexDigitVal? c).isSome) :
    isPySpace c = false := by
  by_contra hs
  simp only [Bool.not_eq_false, isPySpace] at hs
  simp only [Bool.or_eq_true, decide_eq_true_eq] at hs
  rcases hs with ((((rfl | rfl) | rfl) | rfl) | rfl) | rfl <;>
    exact absurd h (by decide)

theorem parseHexCore_isSome :
    ∀ cs acc, (∀ c ∈ cs, (hexDigitVal? c).isSome) → (parseHexCore acc cs).isSome := by
  intro cs
  induction cs with
  | nil => intro acc _; simp [parseHexCore]
  | cons c rest ih =>
    intro acc h
    have hc : (hexDigitVal? c).isSome := h c (List.mem_cons_self _ _)
    have hne : c ≠ '_' := by
      rintro rfl
      exact absurd hc (by decide)
    obtain ⟨d, hd⟩ := Option.isSome_iff_exists.mp hc
    rw [parseHexCore.eq_def]
    simp only [if_neg hne, hd]
    exact ih (16 * acc + d) (fun x hx => h x (List.mem_cons_of_mem _ hx))

theorem parseHexDigits_isSome {cs : List Char} (hne : cs ≠ [])
    (h : ∀ c ∈ cs, (hexDigitVal? c).isSome) : (parseHexDigits cs).isSome := by
  cases cs with
  | nil => exact absurd rfl hne
  | cons c rest =>
    have hc : (hexDigitVal? c).isSome := h c (List.mem_cons_self _ _)
    obtain ⟨d, hd⟩ := Option.isSome_iff_exists.mp hc
    simp only [parseHexDigits, hd]
    exact parseHexCore_isSome rest d (fun x hx => h x (List.mem_cons_of_mem _ hx))

theorem pyIntHexBody_isSome {cs : List Char} (hne : cs ≠ [])
    (h : ∀ c ∈ cs, (hexDigitVal? c).isSome) : (pyIntHexBody cs).isSome := by
  cases cs with
  | nil => exact absurd rfl hne
  | cons c rest =>
    cases rest with
    | nil => exact parseHexDigits_isSome hne h
    | cons x rest₂ =>
      have hx : (hexDigitVal? x).isSome := h x (by simp)
      have hnx : ¬(c = '0' ∧ (x = 'x' ∨ x = 'X')) := by
        rintro ⟨-, rfl | rfl⟩ <;> exact absurd hx (by decide)
      simp only [pyIntHexBody, if_neg hnx]
      exact parseHexDigits_isSome hne h

theorem dropWhile_eq_self_of_hex {l : List Char}
    (h : ∀ c ∈ l, (hexDigitVal? c).isSome) : l.dropWhile isPySpace = l := by
  cases l with
  | nil => rfl
  | cons c rest =>
    have := isPySpace_eq_false_of_hex (h c (List.mem_cons_self _ _))
    simp [List.dropWhile, this]

/-- The 16-character hex rendering of a hash always parses back with
`int(·, 16)`. -/
theorem pyIntHex_toHex16_isSome (n : Nat) : (pyIntHex (toHex16 n)).isSome := by
  set l : List Char := List.replicate (16 - (natToHex n).length) '0' ++ natToHex n with hl
  have hhex : ∀ c ∈ l, (hexDigitVal? c).isSome := by
    intro c hc
    rw [hl, List.mem_append] at hc
    rcases hc with hc | hc
    · rw [List.eq_of_mem_replicate hc]
      decide
    · exact natToHex_mem_hex n c hc
  have htl : (toHex16 n).toList = l := rfl
  have hne : l ≠ [] := by
    rw [hl]
    intro hcon
    rcases List.append_eq_nil.mp hcon with ⟨-, h2⟩
    exact natToHex_ne_nil n h2
  unfold pyIntHex
  rw [htl, dropWhile_eq_self_of_hex hhex]
  have hrev : ∀ c ∈ l.reverse, (hexDigitVal? c).isSome := by
    intro c hc
    exact hhex c (List.mem_reverse.mp hc)
  rw [dropWhile_eq_self_of_hex hrev, List.reverse_reverse]
  cases hcase : l with
  | nil => exact absurd hcase hne
  | cons c rest =>
    have hc : (hexDigitVal? c).isSome := by
      rw [hcase] at hhex
      exact hhex c (List.mem_cons_self _ _)
    have hplus : c ≠ '+' := by rintro rfl; exact absurd hc (by decide)
    have hminus : c ≠ '-' := by rintro rfl; exact absurd hc (by decide)
    simp only [if_neg hplus, if_neg hminus]
    have hbody : (pyIntHexBody (c :: rest)).isSome := by
      apply pyIntHexBody_isSome (by simp)
      rw [← hcase]
      exact hhex
    obtain ⟨m, hm⟩ := Option.isSome_iff_exists.mp hbody
    rw [hm]
    rfl

/-- A hash string that parses has distance 0 to itself. -/
theorem hamming_self_of_parses {s : String} (h : (pyIntHex s).isSome) :
    hamming_distance s s = 0 := by
  obtain ⟨v, hv⟩ := Option.isSome_iff_exists.mp h
  unfold hamming_distance
  rw [hv]
  show pyBitCount (pyXor v v) = 0
  rw [pyXor_self]
  rfl

/-- Distance bound for hashes whose parsed magnitude fits in 64 bits. -/
theorem hamming_le_64 {a b : String} {x y : Int} (ha : pyIntHex a = some x)
    (hb : pyIntHex b = some y) (hx : x.natAbs < 2 ^ 64) (hy : y.natAbs < 2 ^ 64) :
    hamming_distance a b ≤ 64 := by
  unfold hamming_distance
  rw [ha, hb]
  show pyBitCount (pyXor x y) ≤ 64
  unfold pyBitCount
  cases x with
  | ofNat m =>
    have hm : m < 2 ^ 64 := by simpa using hx
    cases y with
    | ofNat k =>
      have hk : k < 2 ^ 64 := by simpa using hy
      show popcount (Int.natAbs (Int.ofNat (m ^^^ k))) ≤ 64
      exact popcount_le_of_lt 64 _ (Nat.xor_lt_two_pow hm hk)
    | negSucc k =>
      have hk : k < 2 ^ 64 := by
        have h1 : k + 1 < 2 ^ 64 := by simpa [Int.natAbs_negSucc] using hy
        omega
      show popcount (Int.natAbs (Int.negSucc (m ^^^ k))) ≤ 64
      rw [Int.natAbs_negSucc]
      exact popcount_le_of_le_two_pow
        (Nat.succ_le_of_lt (Nat.xor_lt_two_pow hm hk)) (by omega)
  | negSucc m =>
    have hm : m < 2 ^ 64 := by
      have h1 : m + 1 < 2 ^ 64 := by simpa [Int.natAbs_negSucc] using hx
      omega
    cases y with
    | ofNat k =>
      have hk : k < 2 ^ 64 := by simpa using hy
      show popcount (Int.natAbs (Int.negSucc (m ^^^ k))) ≤ 64
      rw [Int.natAbs_negSucc]
      exact popcount_le_of_le_two_pow
        (Nat.succ_le_of_lt (Nat.xor_lt_two_pow hm hk)) (by omega)
    | negSucc k =>
      have hk : k < 2 ^ 64 := by
        have h1 : k + 1 < 2 ^ 64 := by simpa [Int.natAbs_negSucc] using hy
        omega
      show popcount (Int.natAbs (Int.ofNat (m ^^^ k))) ≤ 64
      exact popcount_le_of_lt 64 _ (Nat.xor_lt_two_pow hm hk)

/-- A hash that fails to parse is maximally distant from everything, in
either argument position. -/
theorem hamming_of_not_parses {a : String} (ha : pyIntHex a = none) (b : String) :
    hamming_distance a b = 64 ∧ hamming_distance b a = 64 := by
  unfold hamming_distance
  rw [ha]
  cases pyIntHex b <;> simp

/-- C2 (amended). The perceptual-hash distance is a bounded symmetric
pseudo-metric in the following sense: the distance of any computed hash to
itself is 0; `hamming_distance` is symmetric on all strings; the distance is
at most 64 whenever both arguments parse as hexadecimal integers of magnitude
below `2 ^ 64` (in particular for every well-formed 16-hex-digit hash); and a
string that fails to parse as hexadecimal is maximally distant (64) in either
position.  (The original claim's unconditional `≤ 64` bound fails for
well-formed hex strings longer than 16 digits; see the counterexample.) -/
theorem C2_phash_distance_props (bits : List Bool) (a b : String) (x y : Int) :
    hamming_distance (compute_phash bits) (compute_phash bits) = 0 ∧
    hamming_distance a b = hamming_distance b a ∧
    (pyIntHex a = some x → pyIntHex b = some y →
      x.natAbs < 2 ^ 64 → y.natAbs < 2 ^ 64 → hamming_distance a b ≤ 64) ∧
    (pyIntHex a = none → hamming_distance a b = 64 ∧ hamming_distance b a = 64) := by
  refine ⟨?_, hamming_comm a b, ?_, ?_⟩
  · exact hamming_self_of_parses (pyIntHex_toHex16_isSome _)
  · intro ha hb hx hy
    exact hamming_le_64 ha hb hx hy
  · intro ha
    exact hamming_of_not_parses ha b

/-- C2 counterexample. `"fffffffffffffffff"` (17 hex digits) is accepted by
`int(·, 16)`, and its distance to the well-formed all-zero hash is 68: the
claimed `0 ≤ d ≤ 64` bound fails, and so does the claimed fallback that a
malformed hash is treated as distance exactly 64. -/
theorem C2_counterexample :
    hamming_distance "fffffffffffffffff" "0000000000000000" = 68 ∧
    ¬ hamming_distance "fffffffffffffffff" "0000000000000000" ≤ 64 := by
  constructor <;> decide

/-- Witness for C2: the bound and malformed-input conjuncts instantiated at
concrete hashes. -/
theorem C2_phash_distance_props_witness :
    hamming_distance "00ff" "0f0f" ≤ 64 ∧ hamming_distance "zz" "00ff" = 64 := by
  constructor
  · exact (C2_phash_distance_props [] "00ff" "0f0f" 255 3855).2.2.1
      (by decide) (by decide) (by decide) (by decide)
  · exact ((C2_phash_distance_props [] "zz" "00ff" 0 0).2.2.2 (by decide)).1

/-! ## Data model (`discovery/models.py`)

Pydantic models become structures; floats become `ℚ`; the `Literal` string
enums stay plain strings (their values are invariants, not types, in the
source). -/

/-- `ReferenceFlags` (models.py lines 30-36). -/
structure ReferenceFlags where
  watermark : Bool := false
  nsfw : Bool := false
  brand_risk : Bool := false
  busy_bg : Bool := false
deriving DecidableEq, Repr

/-- `ReferenceScores` (models.py lines 39-45). -/
structure ReferenceScores where
  quality : ℚ := 0
  risk : ℚ := 0
  outline : ℚ := 0
  flatness : ℚ := 0
deriving DecidableEq, Repr

/-- `Reference` (models.py lines 48-65). -/
structure Reference where
  id : String
  session_id : String
  site : String
  url : String
  thumb_url : String
  title : Option String := none
  license : Option String := none
  author : Option String := none
  width : Option Int := none
  height : Option Int := none
  p_hash : Option String := none
  flags : ReferenceFlags := {}
  scores : ReferenceScores := {}
  status : String := "result"
  weight : ℚ := 1
deriving DecidableEq, Repr

/-! ## Ingestion pipeline (`discovery/service.py`, `process_raw_items`)

The network and image stages of the per-item loop (lines 72-117: missing
`thumb_url`/`url` guards, `thumbs.fetch_source`, `normalize_image`,
`compute_phash`, `evaluate_quality`, `detect_watermark`, any of which skips
the item on failure) are abstracted per item as `Option Reference`: `none` is
an item dropped by those guards, `some r` is the fully normalized reference
built at line 103.  The duplicate-resolution and cap logic of lines 118-150
is embedded in full. -/

/-- Python truthiness of an optional hash string (`not ref.p_hash` is true
for both `None` and `""`). -/
def hashPresent : Option String → Bool
  | none => false
  | some s => !s.isEmpty

/-- The baseline scan of service.py lines 120-130: the first existing
reference whose hash is present and within Hamming distance 8 of the
candidate's. -/
def findDuplicate (baseline : List Reference) (reference : Reference) : Option Reference :=
  baseline.find? (fun existing_ref =>
    hashPresent existing_ref.p_hash && hashPresent reference.p_hash &&
      decide (hamming_distance (existing_ref.p_hash.getD "") (reference.p_hash.getD "") ≤ 8))

/-- Loop state of `process_raw_items`: the `processed` output list, the
`duplicates` counter, the running `baseline` and the `new_count` cap
counter. -/
structure ProcessState where
  processed : List Reference
  duplicates : Nat
  baseline : List Reference
  new_count : Nat
deriving DecidableEq, Repr

/-- One iteration of the `process_raw_items` loop (service.py lines 71-149)
for an already-normalized item. -/
def processStep (limit : Nat) (s : ProcessState) (item : Option Reference) : ProcessState :=
  match item with
  | none => s
  | some reference =>
    match findDuplicate s.baseline reference with
    | some duplicate_ref =>
      if duplicate_ref.scores.quality < reference.scores.quality then
        let replacement := { reference with id := duplicate_ref.id }
        { s with
          duplicates := s.duplicates + 1,
          baseline := s.baseline.erase duplicate_ref ++ [replacement],
          processed := s.processed ++ [replacement] }
      else
        { s with duplicates := s.duplicates + 1 }
    | none =>
      if s.new_count ≥ limit then s
      else
        { s with
          baseline := s.baseline ++ [reference],
          processed := s.processed ++ [reference],
          new_count := s.new_count + 1 }

/-- Full loop of `process_raw_items` over the item list, starting from the
given pre-existing baseline. -/
def processRun (items : List (Option Reference)) (limit : Nat)
    (existing : List Reference) : ProcessState :=
  items.foldl (processStep limit) ⟨[], 0, existing, 0⟩

/-- `process_raw_items` (service.py lines 57-150): returns the processed
references and the duplicate count. -/
def process_raw_items (items : List (Option Reference)) (limit : Nat)
    (existing : List Reference) : List Reference × Nat :=
  ((processRun items limit existing).processed, (processRun items limit existing).duplicates)

/-- `DiscoveryStore.upsert_references` (store.py lines 132-159) restricted to
the reference rows: insert each reference in order, replacing any existing
row with the same id (`ON CONFLICT(id) DO UPDATE`). -/
def upsertReferences (references : List Reference) (table : List Reference) : List Reference :=
  references.foldl
    (fun t ref =>
      if t.any (fun row => row.id = ref.id) then
        t.map (fun row => if row.id = ref.id then ref else row)
      else t ++ [ref])
    table

/-- C1. Duplicate resolution from an empty baseline (with a cap of at least
one so the first candidate can be accepted): ingesting `[A, A']` where `A'`
is within Hamming distance 8 of `A` and not strictly higher quality yields
exactly the accepted reference `A` and duplicate count 1; ingesting
`[A', A]` where `A` is strictly higher quality yields duplicate count 1, a
final baseline holding the single reference that reuses the id of `A'` but
carries the payload of `A` (the old baseline entry is discarded), and
upserting the processed list stores exactly that one reference. -/
theorem C1_dedup_resolution (a a' : Reference) (limit : Nat)
    (ha : hashPresent a.p_hash = true) (ha' : hashPresent a'.p_hash = true)
    (hdist : hamming_distance (a.p_hash.getD "") (a'.p_hash.getD "") ≤ 8)
    (hlim : 1 ≤ limit) :
    (a'.scores.quality ≤ a.scores.quality →
      process_raw_items [some a, some a'] limit [] = ([a], 1)) ∧
    (a'.scores.quality < a.scores.quality →
      process_raw_items [some a', some a] limit [] =
        ([a', { a with id := a'.id }], 1) ∧
      (processRun [some a', some a] limit []).baseline = [{ a with id := a'.id }] ∧
      upsertReferences [a', { a with id := a'.id }] [] = [{ a with id := a'.id }]) := by
  have hstep0 : ∀ r : Reference, processStep limit ⟨[], 0, [], 0⟩ (some r) = ⟨[r], 0, [r], 1⟩ := by
    intro r
    simp [processStep, findDuplicate, show ¬(0 ≥ limit) from by omega]
  have hdist' : hamming_distance (a'.p_hash.getD "") (a.p_hash.getD "") ≤ 8 := by
    rw [hamming_comm]
    exact hdist
  constructor
  · intro hq
    have hfind : findDuplicate [a] a' = some a := by
      unfold findDuplicate
      apply List.find?_cons_of_pos
      simp [ha, ha', hdist]
    have h2 : processStep limit ⟨[a], 0, [a], 1⟩ (some a') = ⟨[a], 1, [a], 1⟩ := by
      simp [processStep, hfind, not_lt.mpr hq]
    unfold process_raw_items processRun
    rw [List.foldl_cons, hstep0 a, List.foldl_cons, h2, List.foldl_nil]
  · intro hq
    have hfind : findDuplicate [a'] a = some a' := by
      unfold findDuplicate
      apply List.find?_cons_of_pos
      simp [ha, ha', hdist']
    have h2 : processStep limit ⟨[a'], 0, [a'], 1⟩ (some a) =
        ⟨[a', { a with id := a'.id }], 1, [{ a with id := a'.id }], 1⟩ := by
      simp [processStep, hfind, hq]
    refine ⟨?_, ?_, ?_⟩
    · unfold process_raw_items processRun
      rw [List.foldl_cons, hstep0 a', List.foldl_cons, h2, List.foldl_nil]
    · unfold processRun
      rw [List.foldl_cons, hstep0 a', List.foldl_cons, h2, List.foldl_nil]
    · simp [upsertReferences]

/-- Witness for C1 at concrete references: a pair of near-duplicate hashes
`"00"`/`"01"` (distance 1) with qualities 9/10 and 1/2. -/
theorem C1_dedup_resolution_witness :
    process_raw_items
      [some { id := "A", session_id := "s", site := "generic", url := "ua",
              thumb_url := "ta", p_hash := some "00",
              scores := { quality := 9/10 } },
       some { id := "B", session_id := "s", site := "generic", url := "ub",
              thumb_url := "tb", p_hash := some "01",
              scores := { quality := 1/2 } }] 10 [] =
      ([{ id := "A", session_id := "s", site := "generic", url := "ua",
          thumb_url := "ta", p_hash := some "00",
          scores := { quality := 9/10 } }], 1) := by
  exact (C1_dedup_resolution
    { id := "A", session_id := "s", site := "generic", url := "ua",
      thumb_url := "ta", p_hash := some "00", scores := { quality := 9/10 } }
    { id := "B", session_id := "s", site := "generic", url := "ub",
      thumb_url := "tb", p_hash := some "01", scores := { quality := 1/2 } }
    10 (by decide) (by decide) (by decide) (by decide)).1 (by norm_num)

/-- Each loop iteration preserves the bound `new_count ≤ limit`: duplicate
outcomes leave `new_count` unchanged, and the accept branch requires
`new_count < limit`. -/
theorem processStep_new_count_le {limit : Nat} {s : ProcessState}
    (h : s.new_count ≤ limit) (item : Option Reference) :
    (processStep limit s item).new_count ≤ limit := by
  cases item with
  | none => simpa [processStep] using h
  | some r =>
    cases hf : findDuplicate s.baseline r with
    | some d =>
      simp only [processStep, hf]
      split_ifs <;> simpa using h
    | none =>
      simp only [processStep, hf]
      split_ifs with hge
      · exact h
      · simp only
        omega

theorem processRun_new_count_le (items : List (Option Reference)) (limit : Nat) :
    ∀ s : ProcessState, s.new_count ≤ limit →
      (items.foldl (processStep limit) s).new_count ≤ limit := by
  induction items with
  | nil => intro s h; exact h
  | cons item rest ih =>
    intro s h
    rw [List.foldl_cons]
    exact ih _ (processStep_new_count_le h item)

/-- C5. Cap semantics of `process_raw_items`: the number of newly accepted
(non-replacing) references never exceeds `limit`; a candidate that matches
the current baseline is resolved as a duplicate — incrementing the duplicate
counter and never consuming the cap — regardless of the loop state; and once
`limit` new items have been accepted, a non-duplicate candidate is dropped
with the state unchanged, so the loop still scans every remaining candidate
for duplicates. -/
theorem C5_cap_semantics (items : List (Option Reference)) (limit : Nat)
    (existing : List Reference) (s : ProcessState) (r : Reference) :
    (processRun items limit existing).new_count ≤ limit ∧
    (findDuplicate s.baseline r ≠ none →
      (processStep limit s (some r)).duplicates = s.duplicates + 1 ∧
      (processStep limit s (some r)).new_count = s.new_count) ∧
    (limit ≤ s.new_count → findDuplicate s.baseline r = none →
      processStep limit s (some r) = s) := by
  refine ⟨processRun_new_count_le items limit _ (Nat.zero_le _), ?_, ?_⟩
  · intro hne
    obtain ⟨d, hd⟩ := Option.ne_none_iff_exists'.mp hne
    simp only [processStep, hd]
    split_ifs <;> exact ⟨rfl, rfl⟩
  · intro hcap hnone
    simp only [processStep, hnone]
    exact if_pos hcap

/-- Witness for C5: a duplicate candidate against a one-element baseline in a
state that already reached the cap is skipped as a duplicate, and a fresh
candidate in the same capped state is dropped unchanged. -/
theorem C5_cap_semantics_witness :
    (processStep 1
      ⟨[], 0, [{ id := "A", session_id := "s", site := "generic", url := "ua",
                 thumb_url := "ta", p_hash := some "00",
                 scores := { quality := 9/10 } }], 1⟩
      (some { id := "B", session_id := "s", site := "generic", url := "ub",
              thumb_url := "tb", p_hash := some "01",
              scores := { quality := 1/2 } })).duplicates = 0 + 1 ∧
    processStep 1 ⟨[], 0, [], 1⟩
      (some { id := "B", session_id := "s", site := "generic", url := "ub",
              thumb_url := "tb", p_hash := some "01",
              scores := { quality := 1/2 } }) = ⟨[], 0, [], 1⟩ := by
  constructor
  · exact ((C5_cap_semantics [] 1 []
      ⟨[], 0, [{ id := "A", session_id := "s", site := "generic", url := "ua",
                 thumb_url := "ta", p_hash := some "00",
                 scores := { quality := 9/10 } }], 1⟩
      { id := "B", session_id := "s", site := "generic", url := "ub",
        thumb_url := "tb", p_hash := some "01",
        scores := { quality := 1/2 } }).2.1 (by decide)).1
  · exact (C5_cap_semantics [] 1 [] ⟨[], 0, [], 1⟩
      { id := "B", session_id := "s", site := "generic", url := "ub",
        thumb_url := "tb", p_hash := some "01",
        scores := { quality := 1/2 } }).2.2 (by decide) (by decide)

/-! ## Reference store and router actions (`discovery/store.py`,
`discovery/router.py`)

The reference table of the SQLite store is modelled as the list of its rows
in `rowid` order; the partial-field `UPDATE ... WHERE id = ? AND
session_id = ?` statements become per-row functional updates. -/

/-- `DiscoveryStore.get_reference` (store.py lines 191-200). -/
def get_reference (session_id reference_id : String) (table : List Reference) :
    Option Reference :=
  table.find? (fun row => row.id = reference_id && row.session_id = session_id)

/-- `DiscoveryStore.update_reference_status` (store.py lines 202-212):
returns the updated table and whether any row changed (`rowcount > 0`). -/
def update_reference_status (session_id reference_id status : String)
    (table : List Reference) : List Reference × Bool :=
  (table.map (fun row =>
      if row.id = reference_id ∧ row.session_id = session_id then
        { row with status := status }
      else row),
   table.any (fun row => row.id = reference_id && row.session_id = session_id))

/-- `DiscoveryStore.update_reference_weight` (store.py lines 214-224). -/
def update_reference_weight (session_id reference_id : String) (weight : ℚ)
    (table : List Reference) : List Reference × Bool :=
  (table.map (fun row =>
      if row.id = reference_id ∧ row.session_id = session_id then
        { row with weight := weight }
      else row),
   table.any (fun row => row.id = reference_id && row.session_id = session_id))

/-- Weight successor used by the star action (router.py line 181):
`1.5 if w == 1.0 else 2.0 if w == 1.5 else 1.0`. -/
def starNextWeight (w : ℚ) : ℚ :=
  if w = 1 then 3/2 else if w = 3/2 then 2 else 1

/-- `star_reference` (router.py lines 171-183): `none` models the 404 when
the reference is missing; otherwise the updated table and the returned
`{"weight": next_weight}` payload. -/
def star_reference (session_id reference_id : String) (table : List Reference) :
    Option (List Reference × ℚ) :=
  match get_reference session_id reference_id table with
  | none => none
  | some target =>
    let next_weight := starNextWeight target.weight
    some ((update_reference_weight session_id reference_id next_weight table).1, next_weight)

/-- `select_reference` (router.py lines 130-142): mark the reference
selected, then, when a weight is supplied, store it verbatim; `none` models
the 404. -/
def select_reference (session_id reference_id : String) (weight : Option ℚ)
    (table : List Reference) : Option (List Reference) :=
  let statusUpdate := update_reference_status session_id reference_id "selected" table
  if !statusUpdate.2 then none
  else
    match weight with
    | none => some statusUpdate.1
    | some w => some (update_reference_weight session_id reference_id w statusUpdate.1).1

/-- C10. The star action is total over all weight values: for an existing
reference it stores and returns `starNextWeight` of the current weight,
where the successor is 1.5 for a current weight of exactly 1.0, 2.0 for
exactly 1.5, and 1.0 for every other value; every matching row of the
updated table carries the new weight. -/
theorem C10_star_total (session_id reference_id : String) (table : List Reference)
    (target : Reference)
    (h : get_reference session_id reference_id table = some target) :
    star_reference session_id reference_id table =
      some ((update_reference_weight session_id reference_id
              (starNextWeight target.weight) table).1,
            starNextWeight target.weight) ∧
    (target.weight = 1 → starNextWeight target.weight = 3/2) ∧
    (target.weight = 3/2 → starNextWeight target.weight = 2) ∧
    (target.weight ≠ 1 → target.weight ≠ 3/2 → starNextWeight target.weight = 1) ∧
    (∀ row ∈ (update_reference_weight session_id reference_id
        (starNextWeight target.weight) table).1,
      row.id = reference_id → row.session_id = session_id →
        row.weight = starNextWeight target.weight) := by
  refine ⟨?_, ?_, ?_, ?_, ?_⟩
  · unfold star_reference
    rw [h]
  · intro h1
    simp [starNextWeight, h1]
  · intro h1
    rw [h1]
    norm_num [starNextWeight]
  · intro h1 h2
    simp [starNextWeight, h1, h2]
  · intro row hrow hid hsid
    unfold update_reference_weight at hrow
    obtain ⟨orig, -, rfl⟩ := List.mem_map.mp hrow
    by_cases hc : orig.id = reference_id ∧ orig.session_id = session_id
    · simp [hc]
    · rw [if_neg hc] at hid hsid ⊢
      exact absurd ⟨hid, hsid⟩ hc

/-- Witness for C10 at a concrete one-row table with weight 1.5. -/
theorem C10_star_total_witness :
    star_reference "s" "r1"
      [{ id := "r1", session_id := "s", site := "generic", url := "u",
         thumb_url := "t", weight := 3/2 }] =
      some ([{ id := "r1", session_id := "s", site := "generic", url := "u",
               thumb_url := "t", weight := 2 }], 2) := by
  have h := C10_star_total "s" "r1"
    [{ id := "r1", session_id := "s", site := "generic", url := "u",
       thumb_url := "t", weight := 3/2 }]
    { id := "r1", session_id := "s", site := "generic", url := "u",
      thumb_url := "t", weight := 3/2 }
    rfl
  rw [h.1]
  have h32 : starNextWeight (3/2) = 2 := h.2.2.1 rfl
  simp only [h32]
  rfl

/-- C7 (amended). The star action always produces a weight in
{1.0, 1.5, 2.0} and cycles 1.0 → 1.5 → 2.0 → 1.0; but `select` stores any
caller-supplied weight verbatim (the request model leaves it unvalidated),
so select with a weight outside the set breaks the claimed invariant. -/
theorem C7_weight_invariant (w : ℚ) (session_id reference_id : String)
    (wreq : ℚ) (table table' : List Reference) :
    (starNextWeight w = 1 ∨ starNextWeight w = 3/2 ∨ starNextWeight w = 2) ∧
    (starNextWeight 1 = 3/2 ∧ starNextWeight (3/2) = 2 ∧ starNextWeight 2 = 1) ∧
    (select_reference session_id reference_id (some wreq) table = some table' →
      ∀ row ∈ table', row.id = reference_id → row.session_id = session_id →
        row.weight = wreq) := by
  refine ⟨?_, ⟨by norm_num [starNextWeight], by norm_num [starNextWeight],
    by norm_num [starNextWeight]⟩, ?_⟩
  · unfold starNextWeight
    split_ifs <;> simp
  · intro hsel row hrow hid hsid
    unfold select_reference at hsel
    by_cases hupd : (update_reference_status session_id reference_id "selected" table).2
    · rw [if_neg (by simp [hupd])] at hsel
      obtain rfl : (update_reference_weight session_id reference_id wreq
          (update_reference_status session_id reference_id "selected" table).1).1 = table' :=
        Option.some.inj hsel
      unfold update_reference_weight at hrow
      obtain ⟨orig, -, rfl⟩ := List.mem_map.mp hrow
      by_cases hc : orig.id = reference_id ∧ orig.session_id = session_id
      · simp [hc]
      · rw [if_neg hc] at hid hsid ⊢
        exact absurd ⟨hid, hsid⟩ hc
    · rw [if_pos (by simp [hupd])] at hsel
      exact absurd hsel (by simp)

/-- C7 counterexample. Selecting an existing reference with the arbitrary
weight 3.7 stores 3.7, which is outside {1.0, 1.5, 2.0}: the invariant
claimed for every weight-setting operation fails at `select`. -/
theorem C7_counterexample :
    select_reference "s" "r1" (some (37/10))
      [{ id := "r1", session_id := "s", site := "generic", url := "u",
         thumb_url := "t", weight := 1 }] =
      some [{ id := "r1", session_id := "s", site := "generic", url := "u",
              thumb_url := "t", status := "selected", weight := 37/10 }] ∧
    ¬((37 : ℚ)/10 = 1 ∨ (37 : ℚ)/10 = 3/2 ∨ (37 : ℚ)/10 = 2) := by
  refine ⟨rfl, ?_⟩
  norm_num

/-- Witness for C7: the select branch applied at a concrete table, storing
the caller-supplied weight 3.7 on the matching row. -/
theorem C7_weight_invariant_witness :
    ({ id := "r1", session_id := "s", site := "generic", url := "u",
       thumb_url := "t", status := "selected", weight := 37/10 } : Reference).weight =
      37/10 := by
  exact (C7_weight_invariant 1 "s" "r1" (37/10)
      [{ id := "r1", session_id := "s", site := "generic", url := "u",
         thumb_url := "t", weight := 1 }]
      [{ id := "r1", session_id := "s", site := "generic", url := "u",
         thumb_url := "t", status := "selected", weight := 37/10 }]).2.2
    rfl _ (by simp) rfl rfl

/-! ## Local upload adapter (`discovery/adapters/local.py`) and
`upload_local_references` (router.py lines 186-219)

`UploadFile` carries the fields `ingest` reads: optional content type,
optional filename and raw bytes.  `uuid.uuid4()` is abstracted as an id
oracle indexed by the number of previously accepted files; the
fetch/normalize/hash stage that `process_raw_items` applies to each raw item
is abstracted as a per-item `normalize` oracle, as in the pipeline model. -/

/-- An uploaded file as seen by `LocalAdapter.ingest`. -/
structure UploadFile where
  filename : Option String := none
  content_type : Option String := none
  data : List UInt8 := []
deriving DecidableEq, Repr

/-- A raw reference dictionary produced by `LocalAdapter.ingest`
(local.py lines 33-46). -/
structure RawItem where
  id : String
  session_id : String
  site : String
  url : String
  thumb_url : String
  title : Option String := none
  license : Option String := none
  author : Option String := none
  width : Option Int := none
  height : Option Int := none
deriving DecidableEq, Repr

/-- `MAX_FILE_SIZE = 8 * 1024 * 1024` (local.py line 10). -/
def MAX_FILE_SIZE : Nat := 8 * 1024 * 1024

/-- Standard base64 alphabet. -/
def b64Char (n : Nat) : Char :=
  "ABCDEFGHIJKLMNOPQRSTUVWXYZabcdefghijklmnopqrstuvwxyz0123456789+/".toList.getD n 'A'

/-- `base64.b64encode(data).decode("ascii")`. -/
def base64Encode (data : List UInt8) : String :=
  String.mk (go (data.map (·.toNat)))
where
  go : List Nat → List Char
    | [] => []
    | [a] => [b64Char (a / 4), b64Char (a % 4 * 16), '=', '=']
    | [a, b] => [b64Char (a / 4), b64Char (a % 4 * 16 + b / 16), b64Char (b % 16 * 4), '=']
    | a :: b :: c :: rest =>
      b64Char (a / 4) :: b64Char (a % 4 * 16 + b / 16) ::
        b64Char (b % 16 * 4 + c / 64) :: b64Char (c % 64) :: go rest

/-- Python `str(x)` on an optional string (`f"File {file.filename} ..."`
renders a missing filename as `"None"`). -/
def pyStrOpt : Option String → String
  | none => "None"
  | some s => s

/-- Model of Python `s.startswith(p)`, over the character lists. -/
def pyStartsWith (s p : String) : Bool :=
  p.toList.isPrefixOf s.toList

/-- The content-type guard of local.py line 23: Python truthiness plus
`startswith("image/")` (an empty content type is falsy, and also fails
`startswith`). -/
def isImageFile (file : UploadFile) : Bool :=
  match file.content_type with
  | none => false
  | some ct => pyStartsWith ct "image/"

/-- The oversize error message of local.py lines 27-29
(`MAX_FILE_SIZE // (1024 * 1024) = 8`). -/
def oversizeMsg (file : UploadFile) : String :=
  "File " ++ pyStrOpt file.filename ++ " exceeds 8MB limit"

/-- The raw reference dictionary built for an accepted file
(local.py lines 30-46). -/
def rawItemOf (session_id : String) (file : UploadFile) (reference_id : String) : RawItem :=
  { id := reference_id,
    session_id := session_id,
    site := "local",
    url := "local://" ++ reference_id,
    thumb_url := "data:" ++ (file.content_type.getD "") ++ ";base64," ++
      base64Encode file.data,
    title := file.filename }

namespace LocalAdapter

/-- Loop of `LocalAdapter.ingest` (local.py lines 20-49); `k` counts accepted
files and indexes the uuid oracle. -/
def ingestGo (session_id : String) (idGen : Nat → String) :
    Nat → List UploadFile → Except String (List RawItem)
  | _, [] => .ok []
  | k, file :: rest =>
    if !isImageFile file then ingestGo session_id idGen k rest
    else if file.data.length > MAX_FILE_SIZE then .error (oversizeMsg file)
    else
      match ingestGo session_id idGen (k + 1) rest with
      | .error msg => .error msg
      | .ok items => .ok (rawItemOf session_id file (idGen k) :: items)

/-- `LocalAdapter.ingest` (local.py lines 18-49): the `ValueError` raised for
an oversized image file is the `Except.error` case and aborts the whole
batch; non-image files are skipped. -/
def ingest (session_id : String) (files : List UploadFile) (idGen : Nat → String) :
    Except String (List RawItem) :=
  ingestGo session_id idGen 0 files

end LocalAdapter

/-- Outcome of the local upload route: an HTTP 400 with the adapter's error
message, or the `{"count": n}` payload. -/
inductive UploadOutcome where
  | httpError (detail : String)
  | count (n : Nat)
deriving DecidableEq, Repr

/-- `upload_local_references` (router.py lines 186-219) acting on the
reference table: ingest, and only on success normalize, dedup against the
non-deleted rows of the session and upsert.  The returned table is the store
content after the request; on ingest failure the route raises before any
store write, so the table is returned unchanged.  `normalize` is the oracle
for the fetch/hash/score stage of `process_raw_items`. -/
def upload_local_references (session_id : String) (files : List UploadFile)
    (idGen : Nat → String) (normalize : RawItem → Option Reference)
    (table : List Reference) : List Reference × UploadOutcome :=
  match LocalAdapter.ingest session_id files idGen with
  | .error msg => (table, .httpError msg)
  | .ok raw_items =>
    if raw_items.isEmpty then (table, .count 0)
    else
      let existing :=
        ((table.filter (fun row => row.session_id = session_id)).take 1000).filter
          (fun ref => ref.status ≠ "deleted")
      let result := process_raw_items (raw_items.map normalize) raw_items.length existing
      if result.1.isEmpty then (table, .count 0)
      else (upsertReferences result.1 table, .count result.1.length)

/-- The ingest loop raises the descriptive error of the first image file over
the size ceiling, regardless of how many files were accepted before it. -/
theorem ingestGo_error (session_id : String) (idGen : Nat → String) (f : UploadFile) :
    ∀ (files : List UploadFile) (k : Nat),
      files.find? (fun g => isImageFile g && decide (g.data.length > MAX_FILE_SIZE)) = some f →
      LocalAdapter.ingestGo session_id idGen k files = .error (oversizeMsg f) := by
  intro files
  induction files with
  | nil => intro k h; exact absurd h (by simp)
  | cons g rest ih =>
    intro k h
    by_cases hp : (isImageFile g && decide (g.data.length > MAX_FILE_SIZE)) = true
    · rw [List.find?_cons_of_pos
        (p := fun g => isImageFile g && decide (g.data.length > MAX_FILE_SIZE))
        (a := g) rest hp] at h
      obtain rfl : g = f := Option.some.inj h
      obtain ⟨himg, hsz⟩ := Bool.and_eq_true_iff.mp hp
      simp [LocalAdapter.ingestGo, himg, of_decide_eq_true hsz]
    · rw [List.find?_cons_of_neg
        (p := fun g => isImageFile g && decide (g.data.length > MAX_FILE_SIZE))
        (a := g) rest hp] at h
      cases himg : isImageFile g with
      | false =>
        simp only [LocalAdapter.ingestGo, himg, Bool.not_false, if_pos rfl]
        exact ih k h
      | true =>
        have hsz : ¬g.data.length > MAX_FILE_SIZE := by
          intro hgt
          exact hp (by simp [himg, hgt])
        simp [LocalAdapter.ingestGo, himg, hsz]
        rw [ih (k + 1) h]

/-- Non-image files are invisible to the ingest loop. -/
theorem ingestGo_filter (session_id : String) (idGen : Nat → String) :
    ∀ (files : List UploadFile) (k : Nat),
      LocalAdapter.ingestGo session_id idGen k files =
        LocalAdapter.ingestGo session_id idGen k (files.filter isImageFile) := by
  intro files
  induction files with
  | nil => intro k; rfl
  | cons g rest ih =>
    intro k
    cases himg : isImageFile g with
    | false =>
      simp only [List.filter_cons, himg, Bool.false_eq_true, if_false]
      simp only [LocalAdapter.ingestGo, himg, Bool.not_false, if_pos rfl]
      exact ih k
    | true =>
      simp only [List.filter_cons, himg, if_pos rfl]
      simp [LocalAdapter.ingestGo, himg]
      rw [ih (k + 1)]

/-- C8. Local ingestion error atomicity: if any image file in the batch
exceeds the 8 MiB ceiling then `LocalAdapter.ingest` raises the descriptive
oversize error of the first such file — so the whole batch fails and the
upload route leaves the reference table untouched — while files whose content
type is missing or not `image/...` are silently dropped, as if they were
never in the batch. -/
theorem C8_local_ingest_atomicity (session_id : String) (files : List UploadFile)
    (idGen : Nat → String) (normalize : RawItem → Option Reference)
    (table : List Reference) (f : UploadFile) :
    (files.find? (fun g => isImageFile g && decide (g.data.length > MAX_FILE_SIZE)) = some f →
      LocalAdapter.ingest session_id files idGen = .error (oversizeMsg f) ∧
      upload_local_references session_id files idGen normalize table =
        (table, .httpError (oversizeMsg f))) ∧
    LocalAdapter.ingest session_id files idGen =
      LocalAdapter.ingest session_id (files.filter isImageFile) idGen := by
  constructor
  · intro h
    have herr : LocalAdapter.ingest session_id files idGen = .error (oversizeMsg f) :=
      ingestGo_error session_id idGen f files 0 h
    refine ⟨herr, ?_⟩
    unfold upload_local_references
    rw [herr]
  · exact ingestGo_filter session_id idGen files 0

/-- Witness for C8: a single 8 MiB + 1 byte PNG fails the batch with the
descriptive error and leaves an empty store empty. -/
theorem C8_local_ingest_atomicity_witness :
    upload_local_references "s"
      [{ filename := some "big.png", content_type := some "image/png",
         data := List.replicate (MAX_FILE_SIZE + 1) 0 }]
      (fun _ => "id0") (fun _ => none) [] =
      ([], .httpError "File big.png exceeds 8MB limit") := by
  have hp : (fun g : UploadFile => isImageFile g && decide (g.data.length > MAX_FILE_SIZE))
      { filename := some "big.png", content_type := some "image/png",
        data := List.replicate (MAX_FILE_SIZE + 1) 0 } = true := by
    simp only [isImageFile, List.length_replicate]
    rw [Bool.and_eq_true_iff]
    exact ⟨by decide, by simp⟩
  exact ((C8_local_ingest_atomicity "s"
      [{ filename := some "big.png", content_type := some "image/png",
         data := List.replicate (MAX_FILE_SIZE + 1) 0 }]
      (fun _ => "id0") (fun _ => none) []
      { filename := some "big.png", content_type := some "image/png",
        data := List.replicate (MAX_FILE_SIZE + 1) 0 }).1
    (List.find?_cons_of_pos _ hp)).2

/-! ## Rate limiter (`service.py` lines 24-42)

Time model for the async code: `now` is the value of `time.monotonic()` when
a caller enters the lock-protected region; `slack ≥ 0` is how much longer
than requested `asyncio.sleep` takes (the event loop never wakes a sleeper
early); the lock serializes the critical section, so sequential calls are
modelled by threading the stored timestamp and letting each call arrive
`gap` after the previous one completed (the gap may be any rational — a call
can also arrive "early" relative to the stored timestamp, which is exactly
the case the limiter throttles). -/

/-- Mutable state of a `RateLimiter`: the configured rate and `_last_ts`. -/
structure RateLimiterState where
  rate : ℚ
  last_ts : ℚ
deriving DecidableEq, Repr

/-- `RateLimiter.__init__` (service.py lines 27-30): a nonpositive rate is
stored as 0 and `_last_ts` starts at 0. -/
def RateLimiter.init (rate : ℚ) : RateLimiterState :=
  ⟨if rate > 0 then rate else 0, 0⟩

/-- `RateLimiter.acquire` (service.py lines 32-42): returns the new stored
timestamp and the completion time of the call.  A nonpositive rate returns
immediately; otherwise the caller sleeps until `_last_ts + 1/rate` (plus
`slack`), and the timestamp becomes `max(now, _last_ts + min_interval)`
evaluated at the post-sleep clock. -/
def RateLimiter.acquire (st : RateLimiterState) (now slack : ℚ) : ℚ × ℚ :=
  if st.rate ≤ 0 then (st.last_ts, now)
  else
    let min_interval := 1 / st.rate
    let wait_for := st.last_ts + min_interval - now
    let now₂ := if wait_for > 0 then now + wait_for + slack else now
    (max now₂ (st.last_ts + min_interval), now₂)

/-- A sequence of acquire calls through the shared limiter: each entry is
`(gap, slack)` where `gap` separates the call's entry from the previous
call's completion.  Returns the completion times in order. -/
def runAcquires : RateLimiterState → ℚ → List (ℚ × ℚ) → List ℚ
  | _, _, [] => []
  | st, now, (gap, slack) :: rest =>
    let r := RateLimiter.acquire st (now + gap) slack
    r.2 :: runAcquires ⟨st.rate, r.1⟩ r.2 rest

/-- With a positive rate, every acquire completes no earlier than
`_last_ts + 1/rate`. -/
theorem acquire_done_ge (st : RateLimiterState) (h : 0 < st.rate) (slack : ℚ)
    (hs : 0 ≤ slack) (now : ℚ) :
    st.last_ts + 1 / st.rate ≤ (RateLimiter.acquire st now slack).2 := by
  unfold RateLimiter.acquire
  rw [if_neg (not_le.mpr h)]
  simp only
  split_ifs with hw
  · linarith
  · push_neg at hw
    linarith

/-- With a positive rate, the stored timestamp is advanced by at least
`1/rate` on every acquire. -/
theorem acquire_last_ge (st : RateLimiterState) (h : 0 < st.rate)
    (now slack : ℚ) :
    st.last_ts + 1 / st.rate ≤ (RateLimiter.acquire st now slack).1 := by
  unfold RateLimiter.acquire
  rw [if_neg (not_le.mpr h)]
  exact le_max_right _ _

/-- The completion time never exceeds the newly stored timestamp. -/
theorem acquire_done_le_last (st : RateLimiterState) (h : 0 < st.rate)
    (now slack : ℚ) :
    (RateLimiter.acquire st now slack).2 ≤ (RateLimiter.acquire st now slack).1 := by
  unfold RateLimiter.acquire
  rw [if_neg (not_le.mpr h)]
  exact le_max_left _ _

/-- Consecutive completions of a positive-rate limiter are at least `1/rate`
apart. -/
theorem runAcquires_chain (rate : ℚ) (h : 0 < rate) :
    ∀ (calls : List (ℚ × ℚ)) (last now : ℚ), (∀ c ∈ calls, 0 ≤ c.2) →
      List.Chain' (fun a b => a + 1 / rate ≤ b) (runAcquires ⟨rate, last⟩ now calls) := by
  intro calls
  induction calls with
  | nil => intro last now _; simp [runAcquires]
  | cons c rest ih =>
    intro last now hs
    obtain ⟨gap, slack⟩ := c
    rw [runAcquires]
    apply List.chain'_cons'.mpr
    constructor
    · intro b hb
      cases rest with
      | nil => simp [runAcquires] at hb
      | cons c₂ rest₂ =>
        obtain ⟨gap₂, slack₂⟩ := c₂
        rw [runAcquires] at hb
        simp only [List.head?_cons, Option.mem_def, Option.some.injEq] at hb
        subst hb
        have h₁ := acquire_done_le_last ⟨rate, last⟩ h (now + gap) slack
        have h₂ := acquire_done_ge
          ⟨rate, (RateLimiter.acquire ⟨rate, last⟩ (now + gap) slack).1⟩ h slack₂
          (hs (gap₂, slack₂) (by simp)) ((RateLimiter.acquire ⟨rate, last⟩ (now + gap) slack).2 + gap₂)
        simp only at h₂
        linarith
    · exact ih _ _ (fun d hd => hs d (List.mem_cons_of_mem _ hd))

/-- In a chain whose consecutive elements grow by at least `c`, the last
element is at least the first plus `(length - 1) · c`. -/
theorem chain_head_getLast (c : ℚ) :
    ∀ l : List ℚ, List.Chain' (fun a b => a + c ≤ b) l →
      ∀ hd ∈ l.head?, ∀ lst ∈ l.getLast?, hd + ((l.length - 1 : ℕ) : ℚ) * c ≤ lst := by
  intro l
  induction l with
  | nil => intro _ hd h; simp at h
  | cons a t ih =>
    intro hchain hd hhd lst hlst
    simp only [List.head?_cons, Option.mem_def, Option.some.injEq] at hhd
    subst hhd
    cases t with
    | nil =>
      simp only [List.getLast?_singleton, Option.mem_def, Option.some.injEq] at hlst
      subst hlst
      simp
    | cons b t₂ =>
      have hab : a + c ≤ b := (List.chain'_cons.mp hchain).1
      have hchain₂ : List.Chain' (fun a b => a + c ≤ b) (b :: t₂) :=
        (List.chain'_cons.mp hchain).2
      have hlst₂ : lst ∈ (b :: t₂).getLast? := by
        rwa [List.getLast?_cons_cons] at hlst
      have := ih hchain₂ b (by simp) lst hlst₂
      have hlen : (((a :: b :: t₂).length - 1 : ℕ) : ℚ) = ((b :: t₂).length - 1 : ℕ) + 1 := by
        simp [List.length_cons]
      rw [hlen]
      nlinarith [this, hab]

/-- C9. RateLimiter pacing: for a positive rate every `acquire` advances the
stored last-permitted timestamp by at least `1/rate`, and along any sequence
of N sequential `acquire` calls (sleep never waking early) the last
completion is at least `(N-1)/rate` after the first; a nonpositive rate is
clamped to 0 at construction and makes `acquire` return immediately with the
state unchanged. -/
theorem C9_rate_limiter_pacing (rate last now slack : ℚ) (calls : List (ℚ × ℚ)) :
    (0 < rate →
      last + 1 / rate ≤ (RateLimiter.acquire ⟨rate, last⟩ now slack).1) ∧
    (0 < rate → (∀ c ∈ calls, 0 ≤ c.2) →
      ∀ hd ∈ (runAcquires ⟨rate, last⟩ now calls).head?,
      ∀ lst ∈ (runAcquires ⟨rate, last⟩ now calls).getLast?,
        hd + (((runAcquires ⟨rate, last⟩ now calls).length - 1 : ℕ) : ℚ) * (1 / rate) ≤ lst) ∧
    (rate ≤ 0 → (RateLimiter.init rate).rate = 0 ∧
      RateLimiter.acquire (RateLimiter.init rate) now slack =
        ((RateLimiter.init rate).last_ts, now)) := by
  refine ⟨?_, ?_, ?_⟩
  · intro h
    exact acquire_last_ge ⟨rate, last⟩ h now slack
  · intro h hs
    exact chain_head_getLast (1 / rate) _ (runAcquires_chain rate h calls last now hs)
  · intro h
    have hr : (RateLimiter.init rate).rate = 0 := by
      unfold RateLimiter.init
      simp [not_lt.mpr h]
    refine ⟨hr, ?_⟩
    unfold RateLimiter.acquire
    rw [hr]
    simp

/-- Witness for C9: three back-to-back acquires at rate 2 starting from a
fresh limiter complete within `[1/2, 1, 3/2]`, spanning `(3-1)/2 = 1`
second, and a disabled limiter returns immediately. -/
theorem C9_rate_limiter_pacing_witness :
    (1 : ℚ)/2 + ((2 : ℕ) : ℚ) * (1/2) ≤ 3/2 ∧
    RateLimiter.acquire (RateLimiter.init (-1)) 5 0 = (0, 5) := by
  constructor
  · have hrun : runAcquires ⟨2, 0⟩ 0 [(0, 0), (0, 0), (0, 0)] = [1/2, 1, 3/2] := by
      simp [runAcquires, RateLimiter.acquire]
      norm_num
    have := (C9_rate_limiter_pacing 2 0 0 0 [(0, 0), (0, 0), (0, 0)]).2.1
      (by norm_num) (by intro c hc; fin_cases hc <;> norm_num)
    rw [hrun] at this
    simpa using this ((1 : ℚ)/2) (by simp) ((3 : ℚ)/2) (by simp [List.getLast?])
  · have h := (C9_rate_limiter_pacing (-1) 0 5 0 []).2.2 (by norm_num)
    exact h.2

/-! ## Trait aggregation (`discovery/aggregator.py`)

The numeric aggregation pipeline is embedded over `ℚ`.  Two pieces of the
source are inherently numerical-oracle shaped and are abstracted as
parameters, with everything around them embedded in full:

* the k-means clustering of `_aggregate_palette` (seeded `rng.choice`
  initialization, Euclidean `argmin` labelling and the 10-iteration update
  loop, lines 67-83): the final assignment is a `labels` function from point
  index to cluster index (with `argmin`'s range guarantee
  `labels i < cluster_count` as a hypothesis where needed) and a `centers`
  function from cluster index to centroid;
* `math.log` in the idf factor (line 221): `idfOf doc_total df` stands for
  the whole expression `log((doc_total + 1) / (df + 1)) + 1.0`.

Python `dict`/`Counter` (insertion-ordered, first-touch order preserved by
`+=`) are association lists updated in place. -/

/-- Stable insertion, placing `x` before the first `y` with `le x y`. -/
def insertSorted {α : Type} (le : α → α → Bool) (x : α) : List α → List α
  | [] => [x]
  | y :: ys => if le x y then x :: y :: ys else y :: insertSorted le x ys

/-- Stable insertion sort: models Python `list.sort(key=...)` /
`sorted(...)`, which are stable; a descending `le` models `reverse=True`. -/
def insertionSort {α : Type} (le : α → α → Bool) : List α → List α
  | [] => []
  | x :: xs => insertSorted le x (insertionSort le xs)

theorem insertSorted_perm {α : Type} (le : α → α → Bool) (x : α) :
    ∀ l : List α, (insertSorted le x l).Perm (x :: l) := by
  intro l
  induction l with
  | nil => simp [insertSorted]
  | cons y ys ih =>
    rw [insertSorted]
    split_ifs
    · exact List.Perm.refl _
    · exact (List.Perm.cons y ih).trans (List.Perm.swap x y ys)

theorem insertionSort_perm {α : Type} (le : α → α → Bool) :
    ∀ l : List α, (insertionSort le l).Perm l := by
  intro l
  induction l with
  | nil => exact List.Perm.refl _
  | cons x xs ih =>
    rw [insertionSort]
    exact (insertSorted_perm le x (insertionSort le xs)).trans (List.Perm.cons x ih)

theorem insertSorted_chain' {α : Type} (le : α → α → Bool)
    (htot : ∀ a b, le a b = true ∨ le b a = true) (x : α) :
    ∀ l, List.Chain' (fun a b => le a b = true) l →
      List.Chain' (fun a b => le a b = true) (insertSorted le x l) := by
  intro l
  induction l with
  | nil => intro _; simp [insertSorted]
  | cons y ys ih =>
    intro hc
    obtain ⟨hhead, htail⟩ := List.chain'_cons'.mp hc
    rw [insertSorted]
    split_ifs with hxy
    · exact List.chain'_cons'.mpr ⟨fun b hb => by simp at hb; subst hb; exact hxy, hc⟩
    · have hyx : le y x = true := (htot x y).resolve_left (by simpa using hxy)
      apply List.chain'_cons'.mpr
      refine ⟨?_, ih htail⟩
      intro b hb
      cases ys with
      | nil =>
        simp [insertSorted] at hb
        subst hb
        exact hyx
      | cons z zs =>
        rw [insertSorted] at hb
        split_ifs at hb with hxz
        · simp at hb
          subst hb
          exact hyx
        · simp at hb
          subst hb
          exact hhead z (by simp)

theorem insertionSort_chain' {α : Type} (le : α → α → Bool)
    (htot : ∀ a b, le a b = true ∨ le b a = true) :
    ∀ l : List α, List.Chain' (fun a b => le a b = true) (insertionSort le l) := by
  intro l
  induction l with
  | nil => simp [insertionSort]
  | cons x xs ih => exact insertSorted_chain' le htot x _ ih

/-- `np.median` over a rational list: sort ascending, take the middle
element, or the mean of the two middle elements when even. -/
def npMedian (l : List ℚ) : ℚ :=
  let sorted := insertionSort (fun a b => decide (a ≤ b)) l
  let n := sorted.length
  if n = 0 then 0
  else if n % 2 = 1 then sorted.getD (n / 2) 0
  else (sorted.getD (n / 2 - 1) 0 + sorted.getD (n / 2) 0) / 2

/-- `PaletteColor` (models.py lines 75-79). -/
structure PaletteColor where
  hex : String
  weight : ℚ
deriving DecidableEq, Repr

/-- `TypographyFeature` (models.py lines 82-86). -/
structure TypographyFeature where
  present : Bool := false
  style : Option String := none
deriving DecidableEq, Repr

/-- `CompositionFeature` (models.py lines 89-94). -/
structure CompositionFeature where
  centered : Bool := false
  symmetry : ℚ := 0
  grid : Bool := false
deriving DecidableEq, Repr

/-- `Feature` (models.py lines 97-108). -/
structure Feature where
  reference_id : String
  palette : List PaletteColor
  line_weight : ℚ := 0
  outline_clarity : ℚ := 0
  fill_ratio : ℚ := 0
  typography : TypographyFeature := {}
  motifs : List String := []
  composition : CompositionFeature := {}
  brand_risk : ℚ := 0
deriving DecidableEq, Repr

/-- An RGB color as three rational channels in `[0, 1]`. -/
abbrev Vec3 : Type := ℚ × ℚ × ℚ

/-- `_to_rgb` (aggregator.py lines 13-15): strip leading `#`, parse the three
2-character slices with `int(·, 16)` and scale by 255; `none` models the
`ValueError` a malformed color raises. -/
def toRgb (hex_color : String) : Option Vec3 :=
  let value := hex_color.toList.dropWhile (· = '#')
  let chan := fun (cs : List Char) => (pyIntHex (String.mk cs)).map (fun z => (z : ℚ) / 255)
  match chan (value.take 2), chan ((value.drop 2).take 2), chan ((value.drop 4).take 2) with
  | some r, some g, some b => some (r, g, b)
  | _, _, _ => none

/-- Python `round()` / `int(round(x))`: round half to even. -/
def pyRoundHalfEven (q : ℚ) : ℤ :=
  let fl := ⌊q⌋
  let fr := q - fl
  if fr < 1/2 then fl
  else if 1/2 < fr then fl + 1
  else if fl % 2 = 0 then fl else fl + 1

/-- `f"{z:02X}"`: uppercase hex, zero-padded to width 2 (sign included in the
width, as in Python). -/
def pyFormat02X (z : ℤ) : String :=
  let ds := (natToHex z.natAbs).map Char.toUpper
  let sign := if z < 0 then "-" else ""
  sign ++ String.mk (List.replicate (2 - (ds.length + sign.length)) '0' ++ ds)

/-- The hex string built for a cluster center (aggregator.py line 93). -/
def centerHex (c : Vec3) : String :=
  "#" ++ pyFormat02X (pyRoundHalfEven (c.1 * 255)) ++
    pyFormat02X (pyRoundHalfEven (c.2.1 * 255)) ++
    pyFormat02X (pyRoundHalfEven (c.2.2 * 255))

/-- Lines 56-66 of `_aggregate_palette`: clip the weights to `≥ 1e-6`,
compute the per-channel median/MAD outlier mask and keep the rows passing it;
if the mask removes everything, reset to the original colors and the
*unclipped* weights, exactly as the source does. -/
def paletteArrW (colors : List Vec3) (weights : List ℚ) : List Vec3 × List ℚ :=
  let w₀ := weights.map (fun x => max x (1/1000000))
  let med₁ := npMedian (colors.map (·.1))
  let med₂ := npMedian (colors.map (·.2.1))
  let med₃ := npMedian (colors.map (·.2.2))
  let mad₁ := npMedian (colors.map (fun c => |c.1 - med₁|)) + 1/1000000
  let mad₂ := npMedian (colors.map (fun c => |c.2.1 - med₂|)) + 1/1000000
  let mad₃ := npMedian (colors.map (fun c => |c.2.2 - med₃|)) + 1/1000000
  let keep := fun (c : Vec3) =>
    decide (|c.1 - med₁| ≤ 5/2 * mad₁) && decide (|c.2.1 - med₂| ≤ 5/2 * mad₂) &&
      decide (|c.2.2 - med₃| ≤ 5/2 * mad₃)
  let pairs := (colors.zip w₀).filter (fun p => keep p.1)
  if pairs.isEmpty then (colors, weights) else (pairs.map (·.1), pairs.map (·.2))

/-- `cluster_weights[idx] = w[labels == idx].sum()`
(aggregator.py lines 84-89). -/
def clusterWeight (labels : ℕ → ℕ) (w : List ℚ) (idx : ℕ) : ℚ :=
  ∑ i in (Finset.range w.length).filter (fun i => labels i = idx), w.getD i 0

/-- Descending-by-weight comparison for `palette.sort(key=weight,
reverse=True)`. -/
def paletteDescLe (a b : PaletteColor) : Bool := decide (b.weight ≤ a.weight)

/-- `total = cluster_weights.sum() or 1.0` (aggregator.py line 90): the sum
of the cluster weights, with Python's falsy-`or` replacing a zero total by
1.0. -/
def paletteTotal (labels : ℕ → ℕ) (colors : List Vec3) (weights : List ℚ)
    (size : ℕ) : ℚ :=
  if (∑ idx in Finset.range (min (paletteArrW colors weights).1.length size),
      clusterWeight labels (paletteArrW colors weights).2 idx) = 0 then 1
  else ∑ idx in Finset.range (min (paletteArrW colors weights).1.length size),
    clusterWeight labels (paletteArrW colors weights).2 idx

/-- The unsorted palette entries of aggregator.py lines 91-97: one entry per
cluster, hex from the final center, weight normalized by the total. -/
def paletteRaw (labels : ℕ → ℕ) (centers : ℕ → Vec3) (colors : List Vec3)
    (weights : List ℚ) (size : ℕ) : List PaletteColor :=
  (List.range (min (paletteArrW colors weights).1.length size)).map
    (fun idx => PaletteColor.mk (centerHex (centers idx))
      (clusterWeight labels (paletteArrW colors weights).2 idx /
        paletteTotal labels colors weights size))

/-- Lines 99-104: the empty-palette fallback, zero-weight padding with the
top color, and truncation to `size`. -/
def palettePad (p : List PaletteColor) (size : ℕ) : List PaletteColor :=
  let q : List PaletteColor := if p.isEmpty then [⟨"#FFFFFF", 1⟩] else p
  (q ++ List.replicate (size - q.length) (PaletteColor.mk (q.headD ⟨"#FFFFFF", 1⟩).hex 0)).take size

/-- `_aggregate_palette` (aggregator.py lines 53-104), with the clustering
outcome supplied by the `labels`/`centers` oracles: empty input returns the
`size`-fold white fallback each of weight 1.0; otherwise filter outliers,
weight the clusters, normalize by the total (or 1.0 if the total is zero),
sort descending, pad with zero-weight copies of the top color and truncate to
`size`. -/
def aggregatePalette (labels : ℕ → ℕ) (centers : ℕ → Vec3)
    (colors : List Vec3) (weights : List ℚ) (size : ℕ) : List PaletteColor :=
  if colors.isEmpty then List.replicate size ⟨"#FFFFFF", 1⟩
  else palettePad (insertionSort paletteDescLe (paletteRaw labels centers colors weights size)) size

/-- Ordered association-list lookup: Python `dict.get(k)` (`none` when
absent). -/
def alistGet? {α : Type} (m : List (String × α)) (k : String) : Option α :=
  (m.find? (fun p => p.1 = k)).map (·.2)

/-- `Counter[k] += v`: update in place, or append at the end on first touch
(Python dicts preserve insertion order). -/
def counterAdd (c : List (String × ℚ)) (k : String) (v : ℚ) : List (String × ℚ) :=
  if c.any (fun p => p.1 = k) then
    c.map (fun p => if p.1 = k then (p.1, p.2 + v) else p)
  else c ++ [(k, v)]

/-- `Counter[k]` read: 0 when absent. -/
def counterGet (c : List (String × ℚ)) (k : String) : ℚ := (alistGet? c k).getD 0

/-- Order-preserving deduplication (`set(tags)` only feeds a counter, so any
order is equivalent; first-occurrence order is used). -/
def dedupKeepFirst (l : List String) : List String := go [] l
where
  go : List String → List String → List String
    | _, [] => []
    | seen, x :: xs => if seen.contains x then go seen xs else x :: go (x :: seen) xs

/-- Accumulated counters of the motif loop (aggregator.py lines 196-218). -/
structure MotifStats where
  motif_counter : List (String × ℚ)
  doc_freq : List (String × ℚ)
  tfidf : List (String × ℚ)
  total_tag_weight : ℚ
  doc_total : ℕ
deriving DecidableEq, Repr

/-- One feature's contribution to the motif counters (aggregator.py lines
202-218): features with `brand_risk > 0.6` and features without truthy tags
contribute nothing. -/
def motifFeatureStep (motif_weight_factor : ℚ) (st : MotifStats)
    (fw : Feature × ℚ) : MotifStats :=
  let feature := fw.1
  let ref_weight := fw.2
  if feature.brand_risk > 3/5 then st
  else
    let tags := feature.motifs.filter (fun tag => !tag.isEmpty)
    if tags.isEmpty then st
    else
      let unique_tags := dedupKeepFirst tags
      let doc_freq := unique_tags.foldl (fun c tag => counterAdd c tag 1) st.doc_freq
      let counts : List (String × ℚ) := tags.foldl (fun c tag => counterAdd c tag 1) []
      let tag_weight := ref_weight * (tags.length : ℚ) * motif_weight_factor
      let tfidf := counts.foldl
        (fun c p => counterAdd c p.1 (p.2 / (tags.length : ℚ) * ref_weight * motif_weight_factor))
        st.tfidf
      let motif_counter := counts.foldl
        (fun c p => counterAdd c p.1 (ref_weight * p.2 * motif_weight_factor))
        st.motif_counter
      { motif_counter := motif_counter,
        doc_freq := doc_freq,
        tfidf := tfidf,
        total_tag_weight := st.total_tag_weight + tag_weight,
        doc_total := st.doc_total + 1 }

/-- All motif counters over the weighted feature list. -/
def motifStats (features : List (Feature × ℚ)) (motif_weight_factor : ℚ) : MotifStats :=
  features.foldl (motifFeatureStep motif_weight_factor) ⟨[], [], [], 0, 0⟩

/-- One iteration of the scoring loop (aggregator.py lines 220-225): the 8%
floor on the weighted frequency share (`freq_ratio` is 0 when the total tag
weight is falsy, so everything is dropped then), and the tf·idf product. -/
def motifScoreEntry (st : MotifStats) (idfOf : ℕ → ℚ → ℚ) (p : String × ℚ) :
    Option (String × ℚ) :=
  if (if st.total_tag_weight ≠ 0 then counterGet st.motif_counter p.1 / st.total_tag_weight
      else 0) < 8/100 then none
  else some (p.1, p.2 * idfOf st.doc_total (counterGet st.doc_freq p.1))

/-- Scoring and ranking of aggregator.py lines 219-226: apply the floor and
idf factor tag by tag in `tfidf` order, then sort descending by score
(stable, as `list.sort(reverse=True)` is). -/
def scoredMotifs (features : List (Feature × ℚ)) (motif_weight_factor : ℚ)
    (idfOf : ℕ → ℚ → ℚ) : List (String × ℚ) :=
  insertionSort (fun a b => decide (b.2 ≤ a.2))
    ((motifStats features motif_weight_factor).tfidf.filterMap
      (motifScoreEntry (motifStats features motif_weight_factor) idfOf))

/-- `motifs = [tag for tag, _ in scored_motifs[:12]]` (line 227). -/
def aggregateMotifs (features : List (Feature × ℚ)) (motif_weight_factor : ℚ)
    (idfOf : ℕ → ℚ → ℚ) : List String :=
  ((scoredMotifs features motif_weight_factor idfOf).take 12).map (·.1)

/-- The trimming loop of `_weighted_trimmed_median`
(aggregator.py lines 27-43). -/
def trimLoop (lower_cut upper_cut : ℚ) : ℚ → List (ℚ × ℚ) → List (ℚ × ℚ)
  | _, [] => []
  | accumulated, (value, weight) :: rest =>
    let next_acc := accumulated + weight
    if next_acc ≤ lower_cut then trimLoop lower_cut upper_cut next_acc rest
    else
      let eff₁ := if accumulated < lower_cut then weight - (lower_cut - accumulated) else weight
      let eff₂ := if next_acc > upper_cut then eff₁ - (next_acc - upper_cut) else eff₁
      let out := if eff₂ > 0 then [(value, eff₂)] else []
      if next_acc ≥ upper_cut then out
      else out ++ trimLoop lower_cut upper_cut next_acc rest

/-- The weighted-median pick of aggregator.py lines 45-49. -/
def pickMedian (half : ℚ) : ℚ → List (ℚ × ℚ) → Option ℚ
  | _, [] => none
  | running, (value, weight) :: rest =>
    if running + weight ≥ half then some value
    else pickMedian half (running + weight) rest

/-- `_weighted_trimmed_median` (aggregator.py lines 18-50). -/
def weightedTrimmedMedian (values : List (ℚ × ℚ)) (trim_r : ℚ) : ℚ :=
  if values.isEmpty then 0
  else
    let sorted_values := insertionSort (fun a b => decide (a.1 ≤ b.1)) values
    let total_weight := (sorted_values.map (·.2)).sum
    if total_weight = 0 then 0
    else
      let lower_cut := total_weight * trim_r
      let upper_cut := total_weight * (1 - trim_r)
      let trimmed := trimLoop lower_cut upper_cut 0 sorted_values
      let half := ((trimmed.map (·.2)).sum) / 2
      match pickMedian half 0 trimmed with
      | some v => v
      | none => ((trimmed.getLast?).getD (0, 0)).1

/-- `_map_line_weight` (aggregator.py lines 107-112). -/
def mapLineWeight (value : ℚ) : String :=
  if value ≤ 33/100 then "thin"
  else if value ≤ 66/100 then "regular"
  else "bold"

/-- `_map_outline` (aggregator.py lines 115-116). -/
def mapOutline (value : ℚ) : String :=
  if value ≥ 55/100 then "clean" else "rough"

/-- `_build_typography_hints` (aggregator.py lines 119-145). -/
def buildTypographyHints (features : List (Feature × ℚ)) : List String :=
  let total_weight := (features.map (·.2)).sum
  if total_weight = 0 then []
  else
    let present_weight := ((features.filter (fun fw => fw.1.typography.present)).map (·.2)).sum
    if present_weight / total_weight < (3/10 : ℚ) then []
    else
      let style_counter := features.foldl
        (fun c fw =>
          if fw.1.typography.present then
            counterAdd c (fw.1.typography.style.getD "mixed") fw.2
          else c) []
      let ordered := insertionSort (fun a b => decide (b.2 ≤ a.2)) style_counter
      ordered.map (fun p =>
        if p.1 = "rounded" then "rounded lettering accents"
        else if p.1 = "block" then "confident block typography"
        else if p.1 = "script" then "script-like calligraphy"
        else if p.1 = "outline" then "outline lettering details"
        else "mixed typography flourishes")

/-- `_build_composition_hints` (aggregator.py lines 148-164). -/
def buildCompositionHints (features : List (Feature × ℚ)) : List String :=
  let total_weight := (features.map (·.2)).sum
  if total_weight = 0 then []
  else
    let centered_weight := ((features.filter (fun fw => fw.1.composition.centered)).map (·.2)).sum
    let grid_weight := ((features.filter (fun fw => fw.1.composition.grid)).map (·.2)).sum
    let symmetry_score :=
      (features.map (fun fw => fw.1.composition.symmetry * fw.2)).sum / total_weight
    (if centered_weight ≥ total_weight * (1/2) then ["centered"] else []) ++
      (if symmetry_score ≥ 65/100 then ["symmetrical balance"] else []) ++
        (if grid_weight ≥ total_weight * (2/5) then ["subtle lattice"] else [])

/-- `DatasetTraits` (models.py lines 111-121). -/
structure DatasetTraits where
  session_id : String
  palette : List PaletteColor
  motifs : List String
  line_weight : String
  outline : String
  typography : List String
  composition : List String
  audience_modes : List String
deriving DecidableEq, Repr

/-- The weighted feature list assembled by aggregate_traits (aggregator.py
lines 176-182): `weight_map` keeps the *last* entry per id (dict
comprehension semantics), and references without extracted features are
dropped. -/
def weightedFeatures (selected_refs : List Reference)
    (features_by_ref : List (String × Feature)) : List (Feature × ℚ) :=
  let weight_map := (selected_refs.reverse).map (fun ref => (ref.id, max ref.weight (1/2)))
  selected_refs.filterMap (fun ref =>
    (alistGet? features_by_ref ref.id).map
      (fun feature => (feature, (alistGet? weight_map ref.id).getD 1)))

/-- The pooled palette inputs of aggregator.py lines 186-193, each color
paired with `entry.weight * ref_weight * palette_weight_factor`; `none`
models the exception a malformed hex color raises. -/
def paletteInputs (features : List (Feature × ℚ)) (palette_weight_factor : ℚ) :
    Option (List (Vec3 × ℚ)) :=
  let entries := features.flatMap (fun fw =>
    fw.1.palette.map (fun entry => (entry.hex, entry.weight * fw.2 * palette_weight_factor)))
  entries.foldr
    (fun e acc => match toRgb e.1, acc with
      | some c, some l => some ((c, e.2) :: l)
      | _, _ => none)
    (some [])

/-- `aggregate_traits` (aggregator.py lines 167-259), with the clustering and
logarithm oracles threaded through; `Except.error` carries the two
`ValueError` messages of lines 175 and 184, and a malformed palette color
maps to the `int()` ValueError it raises. -/
def aggregate_traits (session_id : String) (selected_refs : List Reference)
    (features_by_ref : List (String × Feature))
    (weights : Option (List (String × ℚ))) (audience_modes : Option (List String))
    (labels : ℕ → ℕ) (centers : ℕ → Vec3) (idfOf : ℕ → ℚ → ℚ) :
    Except String DatasetTraits :=
  if selected_refs.isEmpty then
    .error "No selected references available for aggregation"
  else
    let features := weightedFeatures selected_refs features_by_ref
    if features.isEmpty then
      .error "No extracted features available for aggregation"
    else
      let getW := fun (key : String) =>
        match weights with
        | none => 1
        | some m => (alistGet? m key).getD 1
      let palette_weight_factor := getW "palette"
      match paletteInputs features palette_weight_factor with
      | none => .error "invalid literal for int() with base 16"
      | some pooled =>
        let aggregated_palette :=
          aggregatePalette labels centers (pooled.map (·.1)) (pooled.map (·.2)) 6
        let motif_weight_factor := getW "motifs"
        let motifs := aggregateMotifs features motif_weight_factor idfOf
        let line_weight_factor := getW "line"
        let line_values := features.map (fun fw => (fw.1.line_weight, fw.2 * line_weight_factor))
        let line_median := weightedTrimmedMedian line_values (1/10)
        let outline_values :=
          features.map (fun fw => (fw.1.outline_clarity, fw.2 * line_weight_factor))
        let outline_median := weightedTrimmedMedian outline_values (1/10)
        let typography_factor := getW "type"
        let typography_hints :=
          buildTypographyHints (features.map (fun fw => (fw.1, fw.2 * typography_factor)))
        let composition_factor := getW "comp"
        let composition_hints :=
          buildCompositionHints (features.map (fun fw => (fw.1, fw.2 * composition_factor)))
        .ok
          { session_id := session_id,
            palette := aggregated_palette,
            motifs := motifs,
            line_weight := mapLineWeight line_median,
            outline := mapOutline outline_median,
            typography := typography_hints,
            composition := composition_hints,
            audience_modes := audience_modes.getD [] }

/-- A feature with `brand_risk > 0.6` contributes nothing to the motif
counters. -/
theorem motifFeatureStep_high_risk (factor : ℚ) (st : MotifStats) (fw : Feature × ℚ)
    (h : fw.1.brand_risk > 3/5) : motifFeatureStep factor st fw = st := by
  unfold motifFeatureStep
  rw [if_pos h]

/-- The motif counters are unchanged by dropping the `brand_risk > 0.6`
features up front. -/
theorem motifStats_filter (features : List (Feature × ℚ)) (factor : ℚ) :
    motifStats features factor =
      motifStats (features.filter (fun fw => decide (fw.1.brand_risk ≤ 3/5))) factor := by
  unfold motifStats
  suffices h : ∀ st, features.foldl (motifFeatureStep factor) st =
      (features.filter (fun fw => decide (fw.1.brand_risk ≤ 3/5))).foldl
        (motifFeatureStep factor) st by
    exact h _
  induction features with
  | nil => intro st; rfl
  | cons fw rest ih =>
    intro st
    by_cases hbr : fw.1.brand_risk ≤ 3/5
    · rw [List.filter_cons_of_pos (by simpa using hbr), List.foldl_cons, List.foldl_cons]
      exact ih _
    · rw [List.filter_cons_of_neg (by simpa using hbr), List.foldl_cons,
        motifFeatureStep_high_risk factor st fw (not_le.mp hbr)]
      exact ih st

/-- Every entry surviving the scoring filter passed the 8% frequency floor
(which in particular forces a nonzero total tag weight). -/
theorem motifScoreEntry_some {st : MotifStats} {idfOf : ℕ → ℚ → ℚ}
    {q p : String × ℚ} (h : motifScoreEntry st idfOf q = some p) :
    st.total_tag_weight ≠ 0 ∧
    8/100 ≤ counterGet st.motif_counter q.1 / st.total_tag_weight ∧ p.1 = q.1 := by
  unfold motifScoreEntry at h
  by_cases htot : st.total_tag_weight ≠ 0
  · rw [if_pos htot] at h
    by_cases hr : counterGet st.motif_counter q.1 / st.total_tag_weight < 8/100
    · rw [if_pos hr] at h
      exact absurd h (by simp)
    · rw [if_neg hr] at h
      have hp := Option.some.inj h
      refine ⟨htot, not_lt.mp hr, ?_⟩
      rw [← hp]
  · rw [if_neg htot] at h
    rw [if_pos (by norm_num)] at h
    exact absurd h (by simp)

theorem mem_scoredMotifs_floor {features : List (Feature × ℚ)} {factor : ℚ}
    {idfOf : ℕ → ℚ → ℚ} {p : String × ℚ}
    (hp : p ∈ scoredMotifs features factor idfOf) :
    (motifStats features factor).total_tag_weight ≠ 0 ∧
    8/100 ≤ counterGet (motifStats features factor).motif_counter p.1 /
      (motifStats features factor).total_tag_weight := by
  unfold scoredMotifs at hp
  have hp' := (insertionSort_perm (fun a b : String × ℚ => decide (b.2 ≤ a.2)) _).mem_iff.mp hp
  obtain ⟨q, -, hsome⟩ := List.mem_filterMap.mp hp'
  obtain ⟨h1, h2, h3⟩ := motifScoreEntry_some hsome
  rw [h3]
  exact ⟨h1, h2⟩

/-- The scored motif list is sorted descending by score. -/
theorem scoredMotifs_sorted (features : List (Feature × ℚ)) (factor : ℚ)
    (idfOf : ℕ → ℚ → ℚ) :
    List.Chain' (fun a b : String × ℚ => b.2 ≤ a.2)
      (scoredMotifs features factor idfOf) := by
  unfold scoredMotifs
  have h := insertionSort_chain' (fun a b : String × ℚ => decide (b.2 ≤ a.2))
    (fun a b => by
      rcases le_total b.2 a.2 with h | h
      · exact Or.inl (decide_eq_true h)
      · exact Or.inr (decide_eq_true h))
  exact (h _).imp (fun a b hab => of_decide_eq_true hab)

/-- C4. For every input to the motif aggregation: the returned tag list has
at most 12 entries; every returned tag passed the 8% weighted-frequency
floor; the list is the head of the score-sorted (descending) candidate list;
and the result is identical to the result over the features with
`brand_risk > 0.6` removed — such features contribute nothing. -/
theorem C4_motif_aggregation (features : List (Feature × ℚ)) (factor : ℚ)
    (idfOf : ℕ → ℚ → ℚ) (tag : String) :
    (aggregateMotifs features factor idfOf).length ≤ 12 ∧
    (tag ∈ aggregateMotifs features factor idfOf →
      (motifStats features factor).total_tag_weight ≠ 0 ∧
      8/100 ≤ counterGet (motifStats features factor).motif_counter tag /
        (motifStats features factor).total_tag_weight) ∧
    (List.Chain' (fun a b : String × ℚ => b.2 ≤ a.2) (scoredMotifs features factor idfOf) ∧
      aggregateMotifs features factor idfOf =
        ((scoredMotifs features factor idfOf).take 12).map (·.1)) ∧
    aggregateMotifs features factor idfOf =
      aggregateMotifs (features.filter (fun fw => decide (fw.1.brand_risk ≤ 3/5)))
        factor idfOf := by
  refine ⟨?_, ?_, ⟨scoredMotifs_sorted features factor idfOf, rfl⟩, ?_⟩
  · unfold aggregateMotifs
    rw [List.length_map]
    exact (List.length_take_le 12 _).trans (le_refl 12) |>.trans (by norm_num) |>.trans (le_refl 12)
  · intro htag
    unfold aggregateMotifs at htag
    obtain ⟨p, hp, rfl⟩ := List.mem_map.mp htag
    exact mem_scoredMotifs_floor (List.mem_of_mem_take hp)
  · unfold aggregateMotifs scoredMotifs
    rw [motifStats_filter features factor]

/-- Witness for C4: a single clean feature tagged `"cat"` yields the motif
list `["cat"]`, whose tag satisfies the 8% floor. -/
theorem C4_motif_aggregation_witness :
    (motifStats [({ reference_id := "a", palette := [], motifs := ["cat"] }, 1)] 1).total_tag_weight ≠ 0 := by
  have hempty : ("cat".isEmpty) = false := rfl
  have hstats : motifStats [({ reference_id := "a", palette := [], motifs := ["cat"] }, 1)] 1 =
      ⟨[("cat", 1)], [("cat", 1)], [("cat", 1)], 1, 1⟩ := by
    simp [motifStats, motifFeatureStep, counterAdd, dedupKeepFirst, dedupKeepFirst.go, hempty]
    norm_num
  have hentry : motifScoreEntry ⟨[("cat", 1)], [("cat", 1)], [("cat", 1)], 1, 1⟩
      (fun _ _ => 1) ("cat", 1) = some ("cat", 1) := by
    norm_num [motifScoreEntry, counterGet, alistGet?, List.find?]
  have hagg : aggregateMotifs [({ reference_id := "a", palette := [], motifs := ["cat"] }, 1)]
      1 (fun _ _ => 1) = ["cat"] := by
    unfold aggregateMotifs scoredMotifs
    rw [hstats]
    simp [hentry, insertionSort, insertSorted]
  exact ((C4_motif_aggregation
      [({ reference_id := "a", palette := [], motifs := ["cat"] }, 1)] 1
      (fun _ _ => 1) "cat").2.1 (by rw [hagg]; simp)).1

/-! ### Supporting lemmas for the palette claim -/

theorem listRange_map_sum (f : ℕ → ℚ) (n : ℕ) :
    ((List.range n).map f).sum = ∑ i in Finset.range n, f i := by
  induction n with
  | zero => simp
  | succ n ih =>
    rw [List.range_succ, List.map_append, List.sum_append, Finset.sum_range_succ, ih]
    simp

theorem sum_range_getD (l : List ℚ) :
    ∑ i in Finset.range l.length, l.getD i 0 = l.sum := by
  induction l with
  | nil => simp
  | cons a t ih =>
    rw [List.length_cons, Finset.sum_range_succ']
    simp only [List.getD_cons_succ, List.getD_cons_zero]
    rw [ih, List.sum_cons]
    ring

/-- When every point is labelled below `cc`, the cluster weights sum to the
total point weight. -/
theorem clusterWeight_total (labels : ℕ → ℕ) (w : List ℚ) (cc : ℕ)
    (hlab : ∀ i, labels i < cc) :
    ∑ idx in Finset.range cc, clusterWeight labels w idx = w.sum := by
  unfold clusterWeight
  rw [Finset.sum_fiberwise_of_maps_to (fun i _ => Finset.mem_range.mpr (hlab i))]
  exact sum_range_getD w

theorem getD_nonneg {l : List ℚ} (h : ∀ x ∈ l, 0 < x) (i : ℕ) : 0 ≤ l.getD i 0 := by
  by_cases hi : i < l.length
  · have : l.getD i 0 = l.get ⟨i, hi⟩ := by
      rw [List.getD_eq_getElem?_getD, List.getElem?_eq_getElem hi]
      rfl
    rw [this]
    exact le_of_lt (h _ (l.get_mem i hi))
  · rw [List.getD_eq_default _ _ (not_lt.mp hi)]

theorem clusterWeight_nonneg (labels : ℕ → ℕ) {w : List ℚ}
    (hw : ∀ x ∈ w, 0 < x) (idx : ℕ) : 0 ≤ clusterWeight labels w idx := by
  unfold clusterWeight
  exact Finset.sum_nonneg (fun i _ => getD_nonneg hw i)

/-- Shape facts about the filtered point/weight arrays: equal lengths, both
nonempty, and strictly positive weights (from the `1e-6` clip on the filtered
path, from the positivity hypothesis on the reset path). -/
theorem paletteArrW_spec (colors : List Vec3) (weights : List ℚ)
    (hcol : colors ≠ []) (hlen : weights.length = colors.length)
    (hw : ∀ w ∈ weights, 0 < w) :
    (paletteArrW colors weights).2.length = (paletteArrW colors weights).1.length ∧
    (paletteArrW colors weights).2 ≠ [] ∧
    ∀ w ∈ (paletteArrW colors weights).2, 0 < w := by
  unfold paletteArrW
  simp only
  split_ifs with hemp
  · refine ⟨hlen, ?_, hw⟩
    intro hnil
    have hnil' : weights = [] := hnil
    rw [hnil'] at hlen
    have hc0 : colors.length = 0 := by simpa using hlen.symm
    exact hcol (List.length_eq_zero.mp hc0)
  · refine ⟨by simp, ?_, ?_⟩
    · simpa using hemp
    · intro w hwm
      obtain ⟨p, hp, rfl⟩ := List.mem_map.mp hwm
      have hzip := (List.mem_filter.mp hp).1
      obtain ⟨c, hc⟩ : ∃ c, p = (c, p.2) := ⟨p.1, rfl⟩
      rw [hc] at hzip
      have hmem := (List.of_mem_zip hzip).2
      obtain ⟨v, -, hv⟩ := List.mem_map.mp hmem
      rw [← hv]
      have : (0 : ℚ) < 1/1000000 := by norm_num
      exact lt_of_lt_of_le this (le_max_right _ _)

theorem chain'_replicate {α : Type} (R : α → α → Prop) (n : ℕ) (x : α)
    (hx : R x x) : List.Chain' R (List.replicate n x) := by
  induction n with
  | zero => simp
  | succ n ih =>
    rw [List.replicate_succ]
    apply List.chain'_cons'.mpr
    refine ⟨?_, ih⟩
    intro y hy
    cases n with
    | zero => simp at hy
    | succ m =>
      rw [List.replicate_succ, List.head?_cons, Option.mem_def, Option.some.injEq] at hy
      rw [← hy]
      exact hx

theorem palettePad_length (p : List PaletteColor) (size : ℕ) :
    (palettePad p size).length = size := by
  unfold palettePad
  split_ifs with h <;>
    simp only [List.length_take, List.length_append, List.length_replicate,
      List.length_singleton] <;> omega

theorem paletteDescLe_total : ∀ a b : PaletteColor,
    paletteDescLe a b = true ∨ paletteDescLe b a = true := by
  intro a b
  unfold paletteDescLe
  rcases le_total b.weight a.weight with h | h
  · exact Or.inl (decide_eq_true h)
  · exact Or.inr (decide_eq_true h)

/-- C3 (amended). The aggregated palette always has exactly 6 entries; when
no palette color is pooled at all the fallback is 6 copies of white *each of
weight 1.0* (so the weights sum to 6, not 1); and when the pooled colors are
nonempty with positive weights (matching the colors in number) and the
k-means labelling is in range, the 6 weights sum to exactly 1 and the list is
sorted by weight in descending order. -/
theorem C3_palette_aggregation (labels : ℕ → ℕ) (centers : ℕ → Vec3)
    (colors : List Vec3) (weights : List ℚ) :
    (aggregatePalette labels centers colors weights 6).length = 6 ∧
    (colors = [] →
      aggregatePalette labels centers colors weights 6 =
        List.replicate 6 ⟨"#FFFFFF", 1⟩) ∧
    (colors ≠ [] → weights.length = colors.length → (∀ w ∈ weights, 0 < w) →
      (∀ i, labels i < min (paletteArrW colors weights).1.length 6) →
      ((aggregatePalette labels centers colors weights 6).map (·.weight)).sum = 1 ∧
      List.Chain' (fun a b : PaletteColor => b.weight ≤ a.weight)
        (aggregatePalette labels centers colors weights 6)) := by
  refine ⟨?_, ?_, ?_⟩
  · unfold aggregatePalette
    split_ifs with h
    · simp
    · exact palettePad_length _ 6
  · intro hnil
    unfold aggregatePalette
    rw [if_pos (by simp [hnil])]
  · intro hcol hlen hw hlab
    obtain ⟨hlen2, hne2, hpos2⟩ := paletteArrW_spec colors weights hcol hlen hw
    have hsum_pos : 0 < (paletteArrW colors weights).2.sum := List.sum_pos _ hpos2 hne2
    have hcc : ∀ i, labels i < min (paletteArrW colors weights).1.length 6 := hlab
    have htot_eq : (∑ idx in Finset.range (min (paletteArrW colors weights).1.length 6),
        clusterWeight labels (paletteArrW colors weights).2 idx) =
        (paletteArrW colors weights).2.sum :=
      clusterWeight_total labels _ _ hcc
    have htotal : paletteTotal labels colors weights 6 = (paletteArrW colors weights).2.sum := by
      unfold paletteTotal
      rw [htot_eq]
      exact if_neg (ne_of_gt hsum_pos)
    have hcc_pos : 1 ≤ min (paletteArrW colors weights).1.length 6 := by
      have h1 : 1 ≤ (paletteArrW colors weights).1.length := by
        rw [← hlen2]
        have := List.length_pos.mpr hne2
        omega
      omega
    -- sum of the raw palette weights is 1
    have hraw_sum : ((paletteRaw labels centers colors weights 6).map (·.weight)).sum = 1 := by
      unfold paletteRaw
      rw [List.map_map]
      have : ((·.weight) ∘ fun idx => PaletteColor.mk (centerHex (centers idx))
          (clusterWeight labels (paletteArrW colors weights).2 idx /
            paletteTotal labels colors weights 6)) =
          fun idx => clusterWeight labels (paletteArrW colors weights).2 idx /
            paletteTotal labels colors weights 6 := rfl
      rw [this, listRange_map_sum, ← Finset.sum_div, htot_eq, htotal]
      exact div_self (ne_of_gt hsum_pos)
    have hraw_len : (paletteRaw labels centers colors weights 6).length =
        min (paletteArrW colors weights).1.length 6 := by
      unfold paletteRaw
      simp
    have hraw_nonneg : ∀ x ∈ paletteRaw labels centers colors weights 6, 0 ≤ x.weight := by
      intro x hx
      obtain ⟨idx, -, rfl⟩ := List.mem_map.mp hx
      exact div_nonneg (clusterWeight_nonneg labels hpos2 idx)
        (by rw [htotal]; exact le_of_lt hsum_pos)
    set sorted := insertionSort paletteDescLe (paletteRaw labels centers colors weights 6) with hsorted
    have hperm := insertionSort_perm paletteDescLe (paletteRaw labels centers colors weights 6)
    have hsorted_sum : (sorted.map (·.weight)).sum = 1 := by
      rw [(hperm.map (·.weight)).sum_eq]
      exact hraw_sum
    have hsorted_len : sorted.length = min (paletteArrW colors weights).1.length 6 := by
      rw [hperm.length_eq]
      exact hraw_len
    have hsorted_ne : sorted.isEmpty = false := by
      cases hs : sorted with
      | nil =>
        rw [hs] at hsorted_len
        simp at hsorted_len
        omega
      | cons a t => rfl
    have hle6 : sorted.length ≤ 6 := by
      rw [hsorted_len]
      omega
    have hagg2 : aggregatePalette labels centers colors weights 6 =
        sorted ++ List.replicate (6 - sorted.length)
          (PaletteColor.mk ((sorted.headD ⟨"#FFFFFF", 1⟩).hex) 0) := by
      unfold aggregatePalette
      rw [if_neg (by simp [hcol])]
      simp only [palettePad, hsorted_ne, Bool.false_eq_true, if_false]
      rw [← hsorted]
      apply List.take_of_length_le
      rw [List.length_append, List.length_replicate]
      omega
    constructor
    · rw [hagg2, List.map_append, List.sum_append, List.map_replicate]
      simp [hsorted_sum]
    · have hchain : List.Chain' (fun a b : PaletteColor => b.weight ≤ a.weight) sorted :=
        (insertionSort_chain' paletteDescLe paletteDescLe_total
          (paletteRaw labels centers colors weights 6)).imp
          (fun a b h => of_decide_eq_true h)
      rw [hagg2]
      apply List.chain'_append.mpr
      refine ⟨hchain, chain'_replicate _ _ _ (le_refl 0), ?_⟩
      intro x hx y hy
      have hxmem : x ∈ sorted := List.mem_of_getLast?_eq_some hx
      have hxnn : 0 ≤ x.weight := hraw_nonneg x (hperm.mem_iff.mp hxmem)
      have hy0 : y = PaletteColor.mk ((sorted.headD ⟨"#FFFFFF", 1⟩).hex) 0 := by
        cases hk : 6 - sorted.length with
        | zero => rw [hk] at hy; simp at hy
        | succ m =>
          rw [hk, List.replicate_succ, List.head?_cons, Option.mem_def,
            Option.some.injEq] at hy
          exact hy.symm
      rw [hy0]
      exact hxnn

/-- C3 counterexample. A non-empty weighted feature set whose features carry
no palette entries reaches the empty-colors fallback of `_aggregate_palette`:
`aggregate_traits` succeeds, the palette has 6 entries, but each has weight
1.0, so the weights sum to 6.0 — far outside 1.0 ± 1e-3. -/
theorem C3_counterexample :
    aggregate_traits "s"
      [{ id := "A", session_id := "s", site := "generic", url := "u", thumb_url := "t" }]
      [("A", { reference_id := "A", palette := [] })] none none
      (fun _ => 0) (fun _ => ((0 : ℚ), (0 : ℚ), (0 : ℚ))) (fun _ _ => 1) =
      Except.ok
        { session_id := "s", palette := List.replicate 6 ⟨"#FFFFFF", 1⟩, motifs := [],
          line_weight := "thin", outline := "rough", typography := [],
          composition := [], audience_modes := [] } ∧
    ((List.replicate 6 (PaletteColor.mk "#FFFFFF" 1)).map (·.weight)).sum = 6 ∧
    ¬|((List.replicate 6 (PaletteColor.mk "#FFFFFF" 1)).map (·.weight)).sum - 1| ≤ 1/1000 := by
  have h1 : weightedFeatures
      [{ id := "A", session_id := "s", site := "generic", url := "u", thumb_url := "t" }]
      [("A", { reference_id := "A", palette := [] })] =
      [({ reference_id := "A", palette := [] }, 1)] := by
    norm_num [weightedFeatures, alistGet?, List.filterMap_cons]
  have h2 : paletteInputs [({ reference_id := "A", palette := [] }, 1)] 1 = some [] := rfl
  have h3 : aggregatePalette (fun _ => 0) (fun _ => ((0 : ℚ), (0 : ℚ), (0 : ℚ))) [] [] 6 =
      List.replicate 6 ⟨"#FFFFFF", 1⟩ := rfl
  have h4 : aggregateMotifs [({ reference_id := "A", palette := [] }, 1)] 1 (fun _ _ => 1) = [] := by
    norm_num [aggregateMotifs, scoredMotifs, motifStats, motifFeatureStep, insertionSort]
  have h5 : weightedTrimmedMedian [((0 : ℚ), (1 : ℚ))] (1/10) = 0 := by
    norm_num [weightedTrimmedMedian, insertionSort, insertSorted, trimLoop, pickMedian]
  have h6 : buildTypographyHints [({ reference_id := "A", palette := [] }, (1 : ℚ))] = [] := by
    norm_num [buildTypographyHints]
  have h7 : buildCompositionHints [({ reference_id := "A", palette := [] }, (1 : ℚ))] = [] := by
    norm_num [buildCompositionHints]
  refine ⟨?_, by simp; norm_num, by simp; norm_num⟩
  simp only [aggregate_traits, h1]
  norm_num [h2, h4, mapLineWeight, mapOutline]
  refine ⟨rfl, ?_, ?_, h6, h7⟩
  · intro hlt
    rw [h5] at hlt
    norm_num at hlt
  · intro hle
    rw [h5] at hle
    norm_num at hle

/-- Witness for C3: a single pooled black color of weight 1 yields a 6-entry
palette whose weights sum to exactly 1. -/
theorem C3_palette_aggregation_witness :
    ((aggregatePalette (fun _ => 0) (fun _ => ((0 : ℚ), (0 : ℚ), (0 : ℚ)))
      [((0 : ℚ), (0 : ℚ), (0 : ℚ))] [1] 6).map (·.weight)).sum = 1 := by
  have hpa : paletteArrW [((0 : ℚ), (0 : ℚ), (0 : ℚ))] [1] =
      ([((0 : ℚ), (0 : ℚ), (0 : ℚ))], [1]) := by
    norm_num [paletteArrW, npMedian, insertionSort, insertSorted, sup_eq_max, max_def]
  exact ((C3_palette_aggregation (fun _ => 0) (fun _ => ((0 : ℚ), (0 : ℚ), (0 : ℚ)))
      [((0 : ℚ), (0 : ℚ), (0 : ℚ))] [1]).2.2 (by simp) rfl
      (by intro w hw; rw [List.mem_singleton.mp hw]; norm_num)
      (by intro i; rw [hpa]; norm_num)).1

/-! ## Prompt composition (`discovery/prompt.py`) -/

/-- `_BASE_CONSTRAINTS` (prompt.py lines 8-15). -/
def BASE_CONSTRAINTS : List String :=
  ["transparent background", "no shadows", "no gradients", "no textures",
   "clean vector edges", "centered standalone composition"]

/-- `_BASE_NEGATIVE` (prompt.py lines 17-19). -/
def BASE_NEGATIVE : String :=
  "photo-realism, photographic textures, noise, background patterns, brand logos, trademark words"

/-- `_AUDIENCE_MOODS` (prompt.py lines 21-26). -/
def AUDIENCE_MOODS : List (String × String) :=
  [("Baby", "soft, cozy, nurturing warmth"),
   ("Toddler", "playful, friendly energy"),
   ("Baby-Mama", "calm, comforting sophistication"),
   ("Luxury-Inspired", "premium minimal minimalism")]

/-- `_LINE_DESCRIPTORS` (prompt.py lines 28-32). -/
def LINE_DESCRIPTORS : List (String × String) :=
  [("thin", "delicate thin line art"),
   ("regular", "balanced medium line work"),
   ("bold", "bold, confident outlines")]

/-- `_OUTLINE_DESCRIPTORS` (prompt.py lines 34-37). -/
def OUTLINE_DESCRIPTORS : List (String × String) :=
  [("clean", "ultra clean outline clarity"),
   ("rough", "slightly hand-drawn outline texture")]

/-- Generic association lookup reused for the descriptor dictionaries. -/
def alistGetS (m : List (String × String)) (k : String) : Option String :=
  (m.find? (fun p => p.1 = k)).map (·.2)

/-- `f"{q:.2f}"` over an exact rational: round half-even at two decimals and
render sign, integer part and two fractional digits. -/
def formatDot2 (q : ℚ) : String :=
  let scaled := pyRoundHalfEven (q * 100)
  let sign := if scaled < 0 then "-" else ""
  let n := scaled.natAbs
  sign ++ toString (n / 100) ++ "." ++ (if n % 100 < 10 then "0" else "") ++ toString (n % 100)

/-- `_palette_text` (prompt.py lines 40-41). -/
def paletteText (palette : List PaletteColor) : String :=
  String.intercalate ", "
    (palette.map (fun entry => entry.hex ++ " (" ++ formatDot2 entry.weight ++ ")"))

/-- `_motifs_subject` (prompt.py lines 44-47). -/
def motifsSubject (traits : DatasetTraits) (audience_modes : List String) : String :=
  let motifs := if traits.motifs.isEmpty then ["abstract shapes"] else traits.motifs.take 6
  let audience :=
    if audience_modes.isEmpty then "broad audience" else String.intercalate ", " audience_modes
  "vector iconography for " ++ audience ++ " featuring " ++ String.intercalate ", " motifs

/-- `_weight_modifier` (prompt.py lines 50-57): note the *inclusive* bounds
`value >= 1.6` and `value <= 0.7` in the source. -/
def weight_modifier (value : Option ℚ) : String :=
  match value with
  | none => "balanced"
  | some v => if v ≥ 8/5 then "strong focus on" else if v ≤ 7/10 then "light touch of" else "balanced"

/-- `_mood_line` (prompt.py lines 60-66); `dict.fromkeys` deduplicates
keeping first occurrences. -/
def moodLine (audience_modes : List String) (motifs : List String) : String :=
  let moods := audience_modes.map (fun mode => (alistGetS AUDIENCE_MOODS mode).getD "refined minimalism")
  let moods := if moods.isEmpty then ["refined minimalism"] else moods
  let primary_mood := String.intercalate ", " (dedupKeepFirst moods)
  let highlight := if motifs.isEmpty then "soft geometry" else String.intercalate ", " (motifs.take 3)
  "Mood: " ++ primary_mood ++ " with hints of " ++ highlight ++ "."

/-- The `lines` list of `build_master_prompt` (prompt.py lines 89-98). -/
def masterPromptLines (traits : DatasetTraits) (audience_modes : List String)
    (trait_weights : List (String × ℚ)) : List String :=
  let subject_line := motifsSubject traits audience_modes
  let palette_modifier := weight_modifier (alistGet? trait_weights "palette")
  let motif_modifier := weight_modifier (alistGet? trait_weights "motifs")
  let line_descriptor := (alistGetS LINE_DESCRIPTORS traits.line_weight).getD "balanced medium line work"
  let outline_descriptor := (alistGetS OUTLINE_DESCRIPTORS traits.outline).getD "ultra clean outline clarity"
  let typography_text :=
    if traits.typography.isEmpty then "avoid any text or lettering"
    else String.intercalate ", " traits.typography
  let composition_text :=
    if traits.composition.isEmpty then "center-focused"
    else String.intercalate ", " traits.composition
  [String.intercalate ", " BASE_CONSTRAINTS ++ ".",
   "Subject & Motifs (" ++ motif_modifier ++ "): " ++ subject_line ++ ".",
   "Palette (" ++ palette_modifier ++ "): " ++ paletteText traits.palette ++ ".",
   "Line & Outline: " ++ line_descriptor ++ " with " ++ outline_descriptor ++ ".",
   "Typography: " ++ typography_text ++ ".",
   "Composition: " ++ composition_text ++ ".",
   moodLine audience_modes traits.motifs,
   "Negative: " ++ BASE_NEGATIVE ++ "."]

/-- The structured mirror (prompt.py lines 101-112). -/
structure PromptJson where
  audience_modes : List String
  palette : List PaletteColor
  motifs : List String
  line : String
  outline : String
  typography : List String
  composition : List String
  constraints : List String
  mood : String
  negative : String
deriving DecidableEq, Repr

/-- Return value of `build_master_prompt` (prompt.py line 113). -/
structure MasterPrompt where
  prompt_text : String
  prompt_json : PromptJson
deriving DecidableEq, Repr

/-- `build_master_prompt` (prompt.py lines 69-113): a pure function of the
traits, audience modes and optional per-trait weights (`trait_weights or {}`
maps a missing dictionary to the empty one). -/
def build_master_prompt (traits : DatasetTraits) (audience_modes : List String)
    (trait_weights : Option (List (String × ℚ))) : MasterPrompt :=
  let tw := trait_weights.getD []
  { prompt_text := String.intercalate "\n" (masterPromptLines traits audience_modes tw),
    prompt_json :=
      { audience_modes := audience_modes,
        palette := traits.palette,
        motifs := traits.motifs,
        line := traits.line_weight,
        outline := traits.outline,
        typography := if traits.typography.isEmpty then ["avoid text"] else traits.typography,
        composition := if traits.composition.isEmpty then ["centered"] else traits.composition,
        constraints := BASE_CONSTRAINTS,
        mood := (moodLine audience_modes traits.motifs).replace "Mood: " "",
        negative := BASE_NEGATIVE } }

/-! ### Supporting lemmas for the prompt claim -/

theorem intercalate_go_data (s : String) :
    ∀ (as : List String) (acc : String),
      (String.intercalate.go acc s as).data =
        acc.data ++ as.flatMap (fun a => s.data ++ a.data) := by
  intro as
  induction as with
  | nil => intro acc; simp [String.intercalate.go]
  | cons a t ih =>
    intro acc
    rw [String.intercalate.go, ih]
    simp

theorem intercalate_cons_data (s a : String) (as : List String) :
    (String.intercalate s (a :: as)).data =
      a.data ++ as.flatMap (fun x => s.data ++ x.data) := by
  show (String.intercalate.go a s as).data = _
  exact intercalate_go_data s as a

/-- Every member of the joined list appears as an infix of the join. -/
theorem mem_intercalate_infix (s : String) (cs : List String) (c : String)
    (hc : c ∈ cs) : ∃ p q, (String.intercalate s cs).data = p ++ c.data ++ q := by
  cases cs with
  | nil => simp at hc
  | cons a as =>
    rw [intercalate_cons_data]
    rcases List.mem_cons.mp hc with rfl | hmem
    · exact ⟨[], as.flatMap (fun x => s.data ++ x.data), by simp⟩
    · obtain ⟨s₁, s₂, rfl⟩ := List.append_of_mem hmem
      refine ⟨a.data ++ s₁.flatMap (fun x => s.data ++ x.data) ++ s.data,
        s₂.flatMap (fun x => s.data ++ x.data), ?_⟩
      simp

/-- C6 (amended). `build_master_prompt` is a pure function whose prompt text
contains every fixed print-safety constraint (including the literal
`"transparent background"`) and joins a fixed list of lines whose last is the
`"Negative:"` clause; the emphasis phrase is `"strong focus on"` exactly when
the caller-supplied weight is at least 1.6 (the source bound is inclusive),
`"light touch of"` exactly when it is at most 0.7, and `"balanced"` otherwise
— including when the weight is absent. -/
theorem C6_master_prompt (traits : DatasetTraits) (audience_modes : List String)
    (trait_weights : Option (List (String × ℚ))) (c : String) (v : ℚ) :
    (c ∈ BASE_CONSTRAINTS → ∃ p q,
      (build_master_prompt traits audience_modes trait_weights).prompt_text.data =
        p ++ c.data ++ q) ∧
    ((masterPromptLines traits audience_modes (trait_weights.getD [])).getLast? =
        some ("Negative: " ++ BASE_NEGATIVE ++ ".") ∧
      pyStartsWith ("Negative: " ++ BASE_NEGATIVE ++ ".") "Negative:" = true ∧
      (build_master_prompt traits audience_modes trait_weights).prompt_text =
        String.intercalate "\n" (masterPromptLines traits audience_modes (trait_weights.getD []))) ∧
    (weight_modifier none = "balanced" ∧
      (weight_modifier (some v) = "strong focus on" ↔ 8/5 ≤ v) ∧
      (weight_modifier (some v) = "light touch of" ↔ v ≤ 7/10) ∧
      (weight_modifier (some v) = "balanced" ↔ ¬(8/5 ≤ v) ∧ ¬(v ≤ 7/10))) := by
  refine ⟨?_, ⟨rfl, by decide, rfl⟩, rfl, ?_, ?_, ?_⟩
  · intro hc
    obtain ⟨p₀, q₀, h₀⟩ := mem_intercalate_infix ", " BASE_CONSTRAINTS c hc
    obtain ⟨tail, htail⟩ : ∃ tail,
        masterPromptLines traits audience_modes (trait_weights.getD []) =
          (String.intercalate ", " BASE_CONSTRAINTS ++ ".") :: tail := ⟨_, rfl⟩
    have hpt : (build_master_prompt traits audience_modes trait_weights).prompt_text =
        String.intercalate "\n"
          (masterPromptLines traits audience_modes (trait_weights.getD [])) := rfl
    rw [hpt, htail, intercalate_cons_data, String.data_append, h₀]
    exact ⟨p₀, q₀ ++ ".".data ++ tail.flatMap (fun x => "\n".data ++ x.data), by simp⟩
  · simp only [weight_modifier]
    split_ifs with h1 h2
    · exact iff_of_true rfl h1
    · exact iff_of_false (by decide) h1
    · exact iff_of_false (by decide) h1
  · simp only [weight_modifier]
    split_ifs with h1 h2
    · exact iff_of_false (by decide) (by intro h; exact absurd h1 (by linarith))
    · exact iff_of_true rfl h2
    · exact iff_of_false (by decide) h2
  · simp only [weight_modifier]
    split_ifs with h1 h2
    · exact iff_of_false (by decide) (fun h => h.1 h1)
    · exact iff_of_false (by decide) (fun h => h.2 h2)
    · exact iff_of_true rfl ⟨h1, h2⟩

/-- C6 counterexample. At a caller-supplied weight of exactly 1.6 the source
emits `"strong focus on"` although the claim (`weight > 1.6`) requires
`"balanced"` there: the high bound is inclusive (`>= 1.6`), and likewise the
low bound (`<= 0.7`). -/
theorem C6_counterexample :
    weight_modifier (some ((8 : ℚ)/5)) = "strong focus on" ∧
    ¬((8 : ℚ)/5 > 8/5) ∧ "strong focus on" ≠ "balanced" := by
  refine ⟨?_, by norm_num, by decide⟩
  simp only [weight_modifier]
  rw [if_pos (le_refl ((8 : ℚ)/5))]

/-- Witness for C6: the literal `"transparent background"` occurs in the
prompt text composed for `audience_modes = ["Baby"]`. -/
theorem C6_master_prompt_witness :
    ∃ p q, (build_master_prompt ⟨"s", [], [], "thin", "clean", [], [], []⟩
      ["Baby"] none).prompt_text.data = p ++ "transparent background".data ++ q := by
  exact (C6_master_prompt ⟨"s", [], [], "thin", "clean", [], [], []⟩ ["Baby"] none
    "transparent background" 0).1 (by simp [BASE_CONSTRAINTS])

end IMDAI
